import Mathlib

/-!
# wattpilot.go: session state machine, status document and handshake derivation

A shallow embedding of `src/wattpilot.go`.  Go values of type `interface{}` are
the inductive `Value`, a Go `map[string]interface{}` is a `GoMap` (a duplicate-free
association list), a possibly-nil map reference is an `Option GoMap`, and the
methods of `*Wattpilot` are state transformers of type `Go α` over a `World`
(the struct, the global random source and the trace of outputs) that either
finish or panic.  The receive goroutine next to the goroutine that called
`Connect` is a `System` with a step function, in which a send on one of the two
unbuffered channels is a rendezvous with the receive of the caller.
-/

namespace wattpilot

/-! ## Values and maps -/

/-- A Go `byte`. -/
abbrev Byte := UInt8

/-- The dynamic values an `interface{}` holds in this program: the six shapes
`encoding/json` decodes into (`nil`, `bool`, `float64`, `string`, `[]interface{}`,
`map[string]interface{}`) and the `int` that `sendUpdate` stores for `requestId`.
A finite `float64` is a rational number; no handler computes with it.
`map kvs` stands for the Go map obtained by inserting `kvs` in order. -/
inductive Value where
  | nil
  | bool (b : Bool)
  | float64 (x : Rat)
  | int (n : Int)
  | string (s : String)
  | slice (xs : List Value)
  | map (kvs : List (String × Value))

/-- The value stored under `k` in an association list, if any. -/
def lookupEntry (k : String) : List (String × Value) → Option Value
  | [] => none
  | (k', v) :: rest => if k' = k then some v else lookupEntry k rest

/-- The assignment `m[k] = v` on an association list: overwrite the entry of `k`
where it stands, or add a new entry. -/
def setEntry (k : String) (v : Value) : List (String × Value) → List (String × Value)
  | [] => [(k, v)]
  | (k', v') :: rest => if k' = k then (k', v) :: rest else (k', v') :: setEntry k v rest

theorem keys_setEntry (k : String) (v : Value) (l : List (String × Value)) :
    (setEntry k v l).map Prod.fst =
      if k ∈ l.map Prod.fst then l.map Prod.fst else l.map Prod.fst ++ [k] := by
  induction l with
  | nil => simp [setEntry]
  | cons p rest ih =>
    obtain ⟨k', v'⟩ := p
    by_cases h : k' = k
    · simp [setEntry, h]
    · have h' : ¬ k = k' := fun e => h e.symm
      simp only [setEntry, h, if_false, List.map_cons, ih, List.mem_cons, h', false_or]
      split <;> simp

theorem nodup_setEntry (k : String) (v : Value) (l : List (String × Value))
    (h : (l.map Prod.fst).Nodup) : ((setEntry k v l).map Prod.fst).Nodup := by
  rw [keys_setEntry]
  split
  · exact h
  · rename_i hk
    exact List.Nodup.append h (List.nodup_singleton k) (by simpa using hk)

/-- A non-nil Go `map[string]interface{}`: its entries in some iteration order,
each key once. -/
structure GoMap where
  entries : List (String × Value)
  nodup : (entries.map Prod.fst).Nodup

namespace GoMap

/-- The map made by `make(map[string]interface{})`. -/
def empty : GoMap := ⟨[], List.nodup_nil⟩

/-- The two-result index expression `v, ok := m[k]`. -/
def lookup (m : GoMap) (k : String) : Option Value := lookupEntry k m.entries

/-- The index expression `m[k]`: the zero value `nil` for an absent key. -/
def index (m : GoMap) (k : String) : Value := (m.lookup k).getD Value.nil

/-- The assignment `m[k] = v`. -/
def set (m : GoMap) (k : String) (v : Value) : GoMap :=
  ⟨setEntry k v m.entries, nodup_setEntry k v m.entries m.nodup⟩

/-- The map a list of key/value pairs denotes: the pairs inserted in order, a later
pair overwriting an earlier one with the same key (as `encoding/json` decodes an
object). -/
def ofList (kvs : List (String × Value)) : GoMap :=
  kvs.foldl (fun m kv => m.set kv.1 kv.2) empty

/-- The keys of the map. -/
def keys (m : GoMap) : List String := m.entries.map Prod.fst

end GoMap

/-- The entries a `for k, v := range m` loop visits; a nil map has none. -/
def rangeOf : Option GoMap → List (String × Value)
  | none => []
  | some m => m.entries

/-- The index expression `v, ok := m[k]` on a possibly-nil map. -/
def lookupRef (m : Option GoMap) (k : String) : Option Value :=
  match m with
  | none => none
  | some d => d.lookup k

/-- Lines 74-77. -/
def hasKey (data : Option GoMap) (key : String) : Bool :=
  (lookupRef data key).isSome

/-- Lines 79-87: a fresh map, then every entry of every argument assigned
into it, argument by argument. -/
def merge (ms : List (Option GoMap)) : GoMap :=
  ms.foldl (fun res m => (rangeOf m).foldl (fun res kv => res.set kv.1 kv.2) res) GoMap.empty

/-! ## Library functions the program calls -/

/-- The bytes of a Go string, `[]byte(s)`. -/
def bytesOf (s : String) : List Byte := s.toUTF8.data.toList

/-- The digit table of `encoding/hex`. -/
def hextable : List Char :=
  ['0', '1', '2', '3', '4', '5', '6', '7', '8', '9', 'a', 'b', 'c', 'd', 'e', 'f']

/-- The result of `hex.EncodeToString(b)`, also what `fmt.Sprintf("%x", b)` prints for a
byte array: two digits per byte, `hextable[v>>4]` then `hextable[v&0x0f]`. -/
def hexEncodeToString (b : List Byte) : String :=
  String.mk (b.flatMap fun v => [hextable.getD (v.toNat / 16) '0', hextable.getD (v.toNat % 16) '0'])

/-- The alphabet of `base64.StdEncoding`. -/
def encodeStd : List Char :=
  ['A', 'B', 'C', 'D', 'E', 'F', 'G', 'H', 'I', 'J', 'K', 'L', 'M', 'N', 'O', 'P',
   'Q', 'R', 'S', 'T', 'U', 'V', 'W', 'X', 'Y', 'Z', 'a', 'b', 'c', 'd', 'e', 'f',
   'g', 'h', 'i', 'j', 'k', 'l', 'm', 'n', 'o', 'p', 'q', 'r', 's', 't', 'u', 'v',
   'w', 'x', 'y', 'z', '0', '1', '2', '3', '4', '5', '6', '7', '8', '9', '+', '/']

/-- One base64 digit, `enc.encode[i&0x3F]`. -/
def encodeDigit (i : Nat) : Char := encodeStd.getD (i % 64) 'A'

/-- The characters of `base64.StdEncoding.EncodeToString(src)`: four digits for
every three bytes, the last group padded with `=`. -/
def base64Chars : List Byte → List Char
  | a :: b :: c :: rest =>
    let val := a.toNat * 65536 + b.toNat * 256 + c.toNat
    encodeDigit (val / 262144) :: encodeDigit (val / 4096) :: encodeDigit (val / 64) ::
      encodeDigit val :: base64Chars rest
  | [a, b] =>
    let val := a.toNat * 65536 + b.toNat * 256
    [encodeDigit (val / 262144), encodeDigit (val / 4096), encodeDigit (val / 64), '=']
  | [a] =>
    let val := a.toNat * 65536
    [encodeDigit (val / 262144), encodeDigit (val / 4096), '=', '=']
  | [] => []

/-- The result of `base64.StdEncoding.EncodeToString(src)`. -/
def base64EncodeToString (src : List Byte) : String := String.mk (base64Chars src)

/-- Two's-complement wrap-around of a 64-bit Go `int`. -/
def wrapInt (x : Int) : Int := (x + 2 ^ 63) % 2 ^ 64 - 2 ^ 63

/-- The slice expression `s[lo:hi]` on a string, `none` where Go panics with an
index out of range.  Go slices by bytes; the program slices only the outputs of
the hex and base64 encoders, whose characters are one byte each (see
`hexEncodeToString_ascii` and `base64EncodeToString_ascii`). -/
def sliceString (s : String) (lo hi : Int) : Option String :=
  if 0 ≤ lo ∧ lo ≤ hi ∧ hi ≤ s.length then
    some (String.mk ((s.data.drop lo.toNat).take (hi.toNat - lo.toNat)))
  else none

/-- The cryptographic library functions the program calls: their bodies are
not part of the repository, their result sizes are. -/
structure CryptoLib where
  /-- The digest `sha256.Sum256(data)`, a `[32]byte`. -/
  Sum256 : List Byte → List Byte
  Sum256_size : ∀ data, (Sum256 data).length = 32
  /-- The key `pbkdf2.Key(password, salt, iter, keyLen, sha512.New)`. -/
  pbkdf2KeySha512 : (password salt : List Byte) → (iter keyLen : Nat) → List Byte
  pbkdf2KeySha512_size : ∀ password salt iter keyLen,
    (pbkdf2KeySha512 password salt iter keyLen).length = keyLen

/-- Lines 89-92. -/
def sha256sum (lib : CryptoLib) (data : String) : String :=
  hexEncodeToString (lib.Sum256 (bytesOf data))

/-! ## The session and its world -/

/-- Lines 20-41, without the connection, the handler table (see `eventHandler`)
and the two channels (see `Effect`). -/
structure Wattpilot where
  _requestId : Int
  _name : String
  _hostname : String
  _serial : String
  _version : String
  _manufacturer : String
  _devicetype : String
  _protocol : Rat
  _secured : Bool
  _token3 : String
  _hashedpassword : String
  _host : String
  _password : String
  _isInitialized : Bool
  _status : Option GoMap

/-- Lines 43-51: every field not listed has its zero value. -/
def NewWattpilot (host : String) (password : String) : Wattpilot :=
  { _requestId := 0, _name := "", _hostname := "", _serial := "", _version := "",
    _manufacturer := "", _devicetype := "", _protocol := 0, _secured := false,
    _token3 := "", _hashedpassword := "", _host := host, _password := password,
    _isInitialized := false, _status := none }

/-- What a method does to the outside, in the order it does it. -/
inductive Effect where
  /-- The call `connection.WriteMessage(websocket.TextMessage, json.Marshal(message))`. -/
  | writeMessage (message : GoMap)
  /-- The send `w.connected <- b`. -/
  | connected (b : Bool)
  /-- The send `w.initialized <- b`. -/
  | initialized (b : Bool)

/-- The run-time panics of the program. -/
inductive Fault where
  /-- A failed type assertion `x.(T)`. -/
  | typeAssertion
  /-- An assignment to an entry of a nil map. -/
  | nilMap
  /-- A slice expression out of range. -/
  | sliceBounds
  /-- The call `make([]byte, n)` with `n` out of range: negative, or more than the
  runtime allocates. -/
  | makeslice
  deriving DecidableEq

/-- The mutable state a method runs in: the session, the global random source
`src` (the bytes it yields next) and the effects so far. -/
structure World where
  w : Wattpilot
  src : Nat → Byte
  out : List Effect

/-- How a method ends: it returns `a`, or it panics; both leave a world. -/
inductive Res (α : Type) where
  | ok (a : α) (s : World)
  | panic (f : Fault) (s : World)

/-- The world a method leaves. -/
def Res.world {α : Type} : Res α → World
  | .ok _ s => s
  | .panic _ s => s

/-- The value a method returns, `none` when it panics. -/
def Res.value {α : Type} : Res α → Option α
  | .ok a _ => some a
  | .panic _ _ => none

/-- A Go method or statement: a world transformer that may panic. -/
def Go (α : Type) : Type := World → Res α

/-- Returning a value without touching the world. -/
def Go.pure {α : Type} (a : α) : Go α := fun s => .ok a s

/-- Sequencing: a panic skips the rest. -/
def Go.bind {α β : Type} (x : Go α) (f : α → Go β) : Go β := fun s =>
  match x s with
  | .ok a s' => f a s'
  | .panic e s' => .panic e s'

instance : Monad Go where
  pure := Go.pure
  bind := Go.bind

/-- Reading the session. -/
def getW : Go Wattpilot := fun s => .ok s.w s

/-- Assigning to fields of the session. -/
def modifyW (f : Wattpilot → Wattpilot) : Go Unit := fun s => .ok () { s with w := f s.w }

/-- A panic. -/
def goPanic {α : Type} (f : Fault) : Go α := fun s => .panic f s

/-- An effect on the outside.  For a send on one of the two unbuffered channels this
is the send taken: a handler below that sends is the handler run with the caller of
`Connect` at the matching receive.  The send that waits for its receiver is in
`System.step`. -/
def emit (e : Effect) : Go Unit := fun s => .ok () { s with out := s.out ++ [e] }

/-- The type assertion `v.(string)`. -/
def assertString : Value → Go String
  | .string x => pure x
  | _ => goPanic .typeAssertion

/-- The type assertion `v.(bool)`. -/
def assertBool : Value → Go Bool
  | .bool b => pure b
  | _ => goPanic .typeAssertion

/-- The type assertion `v.(float64)`. -/
def assertFloat64 : Value → Go Rat
  | .float64 x => pure x
  | _ => goPanic .typeAssertion

/-- The type assertion `v.(map[string]interface{})`. -/
def assertMap : Value → Go GoMap
  | .map kvs => pure (GoMap.ofList kvs)
  | _ => goPanic .typeAssertion

/-- The slice expression `s[lo:hi]` as a statement. -/
def sliceOrPanic (s : String) (lo hi : Int) : Go String :=
  match sliceString s lo hi with
  | some r => pure r
  | none => goPanic .sliceBounds

/-- The runtime constant `maxAlloc` of a 64-bit platform, `1 << 48`: the largest
number of bytes `make` accepts. -/
def maxAlloc : Nat := 2 ^ 48

/-- The statements `b := make([]byte, n); src.Read(b)`.  `make` panics with
`makeslice: len out of range` when the length is negative or the buffer is larger
than `maxAlloc` bytes; within that limit the memory is taken to be there.
`math/rand` fills the whole buffer and never fails. -/
def makeAndRead (n : Int) : Go (List Byte) := fun s =>
  if n < 0 ∨ (maxAlloc : Int) < n then .panic .makeslice s
  else .ok ((List.range n.toNat).map s.src) { s with src := fun i => s.src (i + n.toNat) }

/-! ## The methods of the session -/

/-- An `error` made by `errors.New(msg)`. -/
structure GoError where
  msg : String
  deriving DecidableEq

/-- Lines 93-97. -/
def getRequestId : Go Int := do
  let current := (← getW)._requestId
  modifyW fun w => { w with _requestId := wrapInt (w._requestId + 1) }
  pure current

/-- Lines 151-174: the message is marshalled and written to the connection; a
write error is logged and dropped. -/
def onSendRepsonse (message : GoMap) : Go Unit :=
  emit (.writeMessage message)

/-- Lines 99-124. -/
def onEventHello (lib : CryptoLib) (message : GoMap) : Go Unit := do
  if hasKey (some message) "hostname" then
    let v ← assertString (message.index "hostname")
    modifyW fun w => { w with _hostname := v }
  else
    pure ()
  if hasKey (some message) "friendly_name" then
    let v ← assertString (message.index "friendly_name")
    modifyW fun w => { w with _name := v }
  else
    modifyW fun w => { w with _name := w._hostname }
  let serial ← assertString (message.index "serial")
  modifyW fun w => { w with _serial := serial }
  if hasKey (some message) "version" then
    let v ← assertString (message.index "version")
    modifyW fun w => { w with _version := v }
  else
    pure ()
  let manufacturer ← assertString (message.index "manufacturer")
  modifyW fun w => { w with _manufacturer := manufacturer }
  let devicetype ← assertString (message.index "devicetype")
  modifyW fun w => { w with _devicetype := devicetype }
  let protocol ← assertFloat64 (message.index "protocol")
  modifyW fun w => { w with _protocol := protocol }
  if hasKey (some message) "secured" then
    let v ← assertBool (message.index "secured")
    modifyW fun w => { w with _secured := v }
  else
    pure ()
  let w ← getW
  let pwd_data := lib.pbkdf2KeySha512 (bytesOf w._password) (bytesOf w._serial) 100000 256
  let hashed ← sliceOrPanic (base64EncodeToString pwd_data) 0 32
  modifyW fun w => { w with _hashedpassword := hashed }

/-- Lines 126-134, on 64-bit `int`s. -/
def randomHexString (n : Int) : Go String := do
  let b ← makeAndRead (Int.tdiv (wrapInt (n + 2)) 2)
  sliceOrPanic (hexEncodeToString b) 1 (wrapInt (n + 1))

/-- Lines 136-150. -/
def onEventAuthRequired (lib : CryptoLib) (message : GoMap) : Go Unit := do
  let token1 ← assertString (message.index "token1")
  let token2 ← assertString (message.index "token2")
  let token3 ← randomHexString 32
  modifyW fun w => { w with _token3 := token3 }
  let w ← getW
  let hash1 := sha256sum lib (token1 ++ w._hashedpassword)
  let hash := sha256sum lib (w._token3 ++ token2 ++ hash1)
  let response := ((GoMap.empty.set "type" (.string "auth")).set "token3" (.string w._token3)).set
    "hash" (.string hash)
  onSendRepsonse response

/-- Lines 176-177. -/
def onEventResponse (_message : GoMap) : Go Unit := pure ()

/-- Lines 178-181, the send taken. -/
def onEventAuthSuccess (_message : GoMap) : Go Unit := emit (.connected true)

/-- Lines 182-185, the send taken. -/
def onEventAuthError (_message : GoMap) : Go Unit := emit (.connected false)

/-- Lines 186-198, the send of line 196 taken: the handler as it runs when `Connect`
is at `<-w.initialized`.  `fullStatusBeforeSend` is the handler up to the send, and
`System.step` parks it there until the caller receives. -/
def onEventFullStatus (message : GoMap) : Go Unit := do
  let isPartial ← assertBool (message.index "partial")
  let status ← assertMap (message.index "status")
  modifyW fun w => { w with _status := some (merge [w._status, some status]) }
  if isPartial then
    pure ()
  else
    emit (.initialized true)
    modifyW fun w => { w with _isInitialized := true }

/-- Lines 199-202. -/
def onEventDeltaStatus (message : GoMap) : Go Unit := do
  let status ← assertMap (message.index "status")
  modifyW fun w => { w with _status := some (merge [w._status, some status]) }

/-- Lines 203-205: the message is logged. -/
def onEventClearInverters (_message : GoMap) : Go Unit := pure ()

/-- Lines 206-208: the message is logged. -/
def onEventUpdateInverter (_message : GoMap) : Go Unit := pure ()

/-- Lines 53-63: the handler table. -/
def eventHandler (lib : CryptoLib) (msgType : String) : Option (GoMap → Go Unit) :=
  if msgType = "hello" then some (onEventHello lib)
  else if msgType = "authRequired" then some (onEventAuthRequired lib)
  else if msgType = "response" then some onEventResponse
  else if msgType = "authSuccess" then some onEventAuthSuccess
  else if msgType = "authError" then some onEventAuthError
  else if msgType = "fullStatus" then some onEventFullStatus
  else if msgType = "deltaStatus" then some onEventDeltaStatus
  else if msgType = "clearInverters" then some onEventClearInverters
  else if msgType = "updateInverter" then some onEventUpdateInverter
  else none

/-- Lines 278-287: what the receive loop does with one decoded message. -/
def dispatch (lib : CryptoLib) (data : GoMap) : Go Unit :=
  match data.lookup "type" with
  | none => pure ()
  | some msgType => do
    let t ← assertString msgType
    match eventHandler lib t with
    | none => pure ()
    | some funcCall => funcCall data

/-- Lines 267-289 on the messages read from the connection, in order; the loop
(and the process) stops at a panic. -/
def receiveHandler (lib : CryptoLib) : List GoMap → Go Unit
  | [] => pure ()
  | data :: rest => do
    dispatch lib data
    receiveHandler lib rest

/-- Lines 291-299: the two results of the method. -/
def GetProperty (name : String) : Go (Value × Option GoError) := do
  let w ← getW
  if !w._isInitialized then
    pure (Value.nil, some ⟨"Connection is not valid"⟩)
  else if !hasKey w._status name then
    pure (Value.nil, some ⟨"Could not find " ++ name⟩)
  else
    pure ((lookupRef w._status name).getD Value.nil, none)

/-- Lines 315-323. -/
def sendUpdate (name : String) (value : Value) : Go (Option GoError) := do
  let message := GoMap.empty
  let message := message.set "type" (.string "setValue")
  let requestId ← getRequestId
  let message := message.set "requestId" (.int requestId)
  let message := message.set "key" (.string name)
  let message := message.set "value" value
  onSendRepsonse message
  pure none

/-- The assignment `w._status[name] = value`, a panic on a nil map. -/
def assignStatus (name : String) (value : Value) : Go Unit := do
  match (← getW)._status with
  | none => goPanic .nilMap
  | some m => modifyW fun w => { w with _status := some (m.set name value) }

/-- Lines 300-314. -/
def SetProperty (name : String) (value : Value) : Go (Option GoError) := do
  let w ← getW
  if !w._isInitialized then
    pure (some ⟨"Connection is not valid"⟩)
  else if !hasKey w._status name then
    pure (some ⟨"Could not find " ++ name⟩)
  else
    let err ← sendUpdate name value
    match err with
    | some e => pure (some e)
    | none =>
      assignStatus name value
      pure none

/-- Lines 325-330: the two results of the method. -/
def Status : Go (Option GoMap × Option GoError) := do
  let w ← getW
  if !w._isInitialized then
    pure (none, some ⟨"Connection is not initialzed"⟩)
  else
    pure (w._status, none)

/-- One thing that happens to a session: a message read by the receive loop, or a
call made by the application. -/
inductive Step where
  | receive (data : GoMap)
  | getProperty (name : String)
  | setProperty (name : String) (value : Value)
  | status

/-- One step, its results dropped. -/
def runStep (lib : CryptoLib) : Step → Go Unit
  | .receive data => dispatch lib data
  | .getProperty name => do let _ ← GetProperty name; pure ()
  | .setProperty name value => do let _ ← SetProperty name value; pure ()
  | .status => do let _ ← Status; pure ()

/-- A history of a session, step by step, up to the first panic. -/
def run (lib : CryptoLib) : List Step → Go Unit
  | [] => pure ()
  | step :: rest => do
    runStep lib step
    run lib rest

/-- The world of a session just made by `NewWattpilot`, nothing sent yet. -/
def newWorld (host password : String) (src : Nat → Byte) : World :=
  { w := NewWattpilot host password, src := src, out := [] }

/-! ## Observations and example inputs -/

/-- The method `x` leaves the observation `f` of the world as it was, also when
it panics. -/
def Keeps {α β : Type} (f : World → β) (x : Go α) : Prop := ∀ s, f (x s).world = f s

/-- The flag `_isInitialized`. -/
def isInit (s : World) : Bool := s.w._isInitialized

/-- A session whose document is `{"a": 0, "b": 2}`. -/
def docWorld : World :=
  { w := { NewWattpilot "wattpilot.local" "secret" with
      _isInitialized := true
      _status := some (GoMap.ofList [("a", .float64 0), ("b", .float64 2)]) },
    src := fun _ => 0, out := [] }

/-- The message `{"type": "deltaStatus", "status": {"a": 1}}`. -/
def deltaA1 : GoMap :=
  GoMap.ofList [("type", .string "deltaStatus"), ("status", .map [("a", .float64 1)])]

/-- The keys of a possibly-nil map. -/
def keysRef : Option GoMap → List String
  | none => []
  | some m => m.keys

/-- The `requestId`s of the `setValue` messages among the effects, in the order
they were written. -/
def setValueIds : List Effect → List Value
  | [] => []
  | .writeMessage message :: rest =>
    match message.index "type" with
    | .string t =>
      if t = "setValue" then message.index "requestId" :: setValueIds rest else setValueIds rest
    | _ => setValueIds rest
  | _ :: rest => setValueIds rest

/-- The request counter together with the `requestId`s sent so far. -/
def idsView (s : World) : Int × List Value := (s.w._requestId, setValueIds s.out)

/-- A stand-in for the cryptographic library, for running the methods on examples:
every digest and every key is all zero bytes. -/
def zeroLib : CryptoLib :=
  { Sum256 := fun _ => List.replicate 32 0
    Sum256_size := fun _ => List.length_replicate 32 0
    pbkdf2KeySha512 := fun _ _ _ keyLen => List.replicate keyLen 0
    pbkdf2KeySha512_size := fun _ _ _ keyLen => List.length_replicate keyLen 0 }

/-- The message `{"type": "hello", "serial": "S1", "manufacturer": "M",
"devicetype": "D", "protocol": 2.0}`. -/
def helloMsg : GoMap :=
  GoMap.ofList [("type", .string "hello"), ("serial", .string "S1"),
    ("manufacturer", .string "M"), ("devicetype", .string "D"), ("protocol", .float64 2)]

/-- The message `{"type": "authRequired", "token1": "t1", "token2": "t2"}`. -/
def authRequiredMsg : GoMap :=
  GoMap.ofList [("type", .string "authRequired"), ("token1", .string "t1"),
    ("token2", .string "t2")]

/-- The message `{"type": "authSuccess"}`. -/
def authSuccessMsg : GoMap := GoMap.ofList [("type", .string "authSuccess")]

/-- The message `{"type": "fullStatus", "partial": true, "status": {"amp": 16}}`. -/
def partialStatusMsg : GoMap :=
  GoMap.ofList [("type", .string "fullStatus"), ("partial", .bool true),
    ("status", .map [("amp", .float64 16)])]

/-- The counter is the number of `requestId`s sent, and these are `0, 1, 2, ...`
(as 64-bit integers). -/
def IdsOk (v : Int × List Value) : Prop :=
  ∃ n : Nat, v.1 = wrapInt n ∧ v.2 = (List.range n).map (fun i : Nat => Value.int (wrapInt i))

/-! ## Frames, and the receive goroutine next to the caller of `Connect` -/

/-- A text frame as `encoding/json` sees it: a JSON object with its members, or
anything else (text that is not JSON, or JSON that is not an object). -/
inductive Frame where
  | object (kvs : List (String × Value))
  | other

/-- Lines 276-277: `data := make(map[string]interface{})` and
`json.Unmarshal(msg, &data)`, whose error is dropped: a frame that is not an
object leaves `data` empty. -/
def unmarshal : Frame → GoMap
  | .object kvs => GoMap.ofList kvs
  | .other => GoMap.empty

/-- Lines 270-287: the body of the receive loop for one frame. -/
def receiveFrame (lib : CryptoLib) (frame : Frame) : Go Unit :=
  dispatch lib (unmarshal frame)

/-- Lines 188-195: `onEventFullStatus` up to its channel send; the result is
`isPartial`. -/
def fullStatusBeforeSend (message : GoMap) : Go Bool := do
  let isPartial ← assertBool (message.index "partial")
  let status ← assertMap (message.index "status")
  modifyW fun w => { w with _status := some (merge [w._status, some status]) }
  pure isPartial

/-- Lines 278-287 up to the first channel send of the handler: the result is the
send the handler has reached, with the statements that follow it, or `none` when
the handler has returned without sending on a channel.  See
`dispatch_eq_dispatchToSend`. -/
def dispatchToSend (lib : CryptoLib) (data : GoMap) : Go (Option (Effect × Go Unit)) :=
  match data.lookup "type" with
  | none => pure none
  | some msgType => do
    let t ← assertString msgType
    if t = "authSuccess" then
      pure (some (.connected true, pure ()))
    else if t = "authError" then
      pure (some (.connected false, pure ()))
    else if t = "fullStatus" then do
      let isPartial ← fullStatusBeforeSend data
      if isPartial then
        pure none
      else
        pure (some (.initialized true, modifyW fun w => { w with _isInitialized := true }))
    else
      match eventHandler lib t with
      | none => pure none
      | some funcCall => do
        funcCall data
        pure none

/-- Where the goroutine that called `Connect` stands in lines 227-231: at
`<-w.connected`, at `<-w.initialized`, or past both. -/
inductive Caller where
  | awaitConnected
  | awaitInitialized
  | returned
  deriving DecidableEq

/-- The receive of the caller that takes the send `e`, if the caller is at one: the
value received is dropped (lines 227 and 231). -/
def Caller.receive : Caller → Effect → Option Caller
  | .awaitConnected, .connected _ => some .awaitInitialized
  | .awaitInitialized, .initialized _ => some .returned
  | _, _ => none

/-- What the receive goroutine does next. -/
inductive Loop where
  /-- It is at `connection.ReadMessage()`. -/
  | reading
  /-- It is parked at the channel send `e`; `rest` is what follows in the handler. -/
  | sending (e : Effect) (rest : Go Unit)
  /-- Its send was received; `rest` is still to run. -/
  | resuming (rest : Go Unit)
  /-- A panic has ended the process. -/
  | stopped

/-- The send the receive goroutine is parked at, if any. -/
def Loop.pending : Loop → Option Effect
  | .sending e _ => some e
  | _ => none

/-- A session after `Connect` has started the receive goroutine: the shared world,
the caller and the receive goroutine. -/
structure System where
  world : World
  caller : Caller
  loop : Loop

/-- A call of the application on the session. -/
inductive Call where
  | getProperty (name : String)
  | setProperty (name : String) (value : Value)
  | status

/-- One call, its results dropped. -/
def runCall : Call → Go Unit
  | .getProperty name => do let _ ← GetProperty name; pure ()
  | .setProperty name value => do let _ ← SetProperty name value; pure ()
  | .status => do let _ ← Status; pure ()

/-- One step of one goroutine. -/
inductive Move where
  /-- The receive goroutine reads a message and runs its handler up to a channel
  send. -/
  | read (data : GoMap)
  /-- The parked send and the receive of the caller meet (the channels are
  unbuffered). -/
  | rendezvous
  /-- The receive goroutine runs the rest of the handler. -/
  | resume
  /-- The application makes a call. -/
  | call (c : Call)

/-- The system after a move, `none` when the move cannot be made. -/
def System.step (lib : CryptoLib) (sys : System) : Move → Option System
  | .read data =>
    match sys.loop with
    | .reading =>
      match dispatchToSend lib data sys.world with
      | .ok none w => some { sys with world := w }
      | .ok (some (e, rest)) w => some { sys with world := w, loop := .sending e rest }
      | .panic _ w => some { sys with world := w, loop := .stopped }
    | _ => none
  | .rendezvous =>
    match sys.loop with
    | .sending e rest =>
      match sys.caller.receive e with
      | some c =>
        some { world := { sys.world with out := sys.world.out ++ [e] }, caller := c,
               loop := .resuming rest }
      | none => none
    | _ => none
  | .resume =>
    match sys.loop with
    | .resuming rest =>
      match rest sys.world with
      | .ok _ w => some { sys with world := w, loop := .reading }
      | .panic _ w => some { sys with world := w, loop := .stopped }
    | _ => none
  | .call c =>
    match sys.loop with
    | .stopped => none
    | _ =>
      match runCall c sys.world with
      | .ok _ w => some { sys with world := w }
      | .panic _ w => some { sys with world := w, loop := .stopped }

/-- The system after a list of moves, `none` when one of them cannot be made. -/
def System.run (lib : CryptoLib) : List Move → System → Option System
  | [], sys => some sys
  | move :: rest, sys =>
    match sys.step lib move with
    | some sys' => System.run lib rest sys'
    | none => none

/-- The system when `Connect` has started the receive goroutine of a new session
and waits at `<-w.connected`. -/
def System.new (host password : String) (src : Nat → Byte) : System :=
  { world := newWorld host password src, caller := .awaitConnected, loop := .reading }

/-- How many times a value was received from `w.connected` and from
`w.initialized`. -/
def received : List Effect → Nat × Nat
  | [] => (0, 0)
  | .connected _ :: rest => ((received rest).1 + 1, (received rest).2)
  | .initialized _ :: rest => ((received rest).1, (received rest).2 + 1)
  | .writeMessage _ :: rest => received rest

/-- The receives made so far. -/
def receivedView (s : World) : Nat × Nat := received s.out

/-- The message `{"type": "fullStatus", "partial": false, "status": {"amp": 16}}`. -/
def fullStatusMsg : GoMap :=
  GoMap.ofList [("type", .string "fullStatus"), ("partial", .bool false),
    ("status", .map [("amp", .float64 16)])]

/-- Every panic of `x` is the fault `e` and leaves the observation `f` of the world as
it was. -/
def Faults {α β : Type} (e : Fault) (f : World → β) (x : Go α) : Prop :=
  ∀ s e' s', x s = .panic e' s' → e' = e ∧ f s' = f s

/-- The method `x` returns only if `P` holds. -/
def Needs {α : Type} (P : Prop) (x : Go α) : Prop := ∀ s a s', x s = .ok a s' → P

/-- What a fault in `onEventHello` leaves alone. -/
def helloKept (s : World) : String × String × String × String × Bool × Option GoMap × Int ×
    List Effect :=
  (s.w._hashedpassword, s.w._token3, s.w._host, s.w._password, s.w._isInitialized, s.w._status,
    s.w._requestId, s.out)

/-- The message `{"type": "deltaStatus"}`, its `status` missing. -/
def deltaNoStatus : GoMap := GoMap.ofList [("type", .string "deltaStatus")]

/-- The message `{"type": "hello", "hostname": "wattpilot-1", "friendly_name": "Garage",
"serial": "S1"}`, its `manufacturer` missing. -/
def helloNoManufacturer : GoMap :=
  GoMap.ofList [("type", .string "hello"), ("hostname", .string "wattpilot-1"),
    ("friendly_name", .string "Garage"), ("serial", .string "S1")]

/-- The system after `authSuccess`, the receive of the caller, and a second
`authSuccess`: the receive goroutine is parked at its second send. -/
def afterAuthSuccess : System :=
  { world := { w := NewWattpilot "wattpilot.local" "secret", src := fun _ => 0,
               out := [.connected true] },
    caller := .awaitInitialized,
    loop := .sending (.connected true) (pure ()) }

/-- The receives the caller has made when it stands at a place. -/
def Caller.received : Caller → Nat × Nat
  | .awaitConnected => (0, 0)
  | .awaitInitialized => (1, 0)
  | .returned => (1, 1)

/-- What the receive goroutine has still to run of the handler it is in. -/
def Loop.rest : Loop → Option (Go Unit)
  | .sending _ rest => some rest
  | .resuming rest => some rest
  | _ => none

/-- The receives made so far are those of the caller, and what the receive goroutine
has still to run of a handler receives nothing. -/
def SignalsOk (sys : System) : Prop :=
  received sys.world.out = sys.caller.received ∧
  ∀ rest, sys.loop.rest = some rest → Keeps receivedView rest

/-- Whether the step is a `SetProperty` call that returns no error in the world `s`. -/
def setSucceeds : Step → World → Bool
  | .setProperty name value, s =>
    match SetProperty name value s with
    | .ok none _ => true
    | _ => false
  | _, _ => false

/-- The number of `SetProperty` calls of a history that return no error, up to the
first panic. -/
def successfulSets (lib : CryptoLib) : List Step → World → Nat
  | [], _ => 0
  | step :: rest, s =>
    (if setSucceeds step s then 1 else 0) +
      match runStep lib step s with
      | .ok _ s' => successfulSets lib rest s'
      | .panic _ _ => 0

/-- The system when `Connect` has received from `w.connected` and waits at
`<-w.initialized`, the receive goroutine at `ReadMessage`. -/
def awaitingInitialized : System :=
  { world := { w := NewWattpilot "wattpilot.local" "secret", src := fun _ => 0,
               out := [.connected true] },
    caller := .awaitInitialized,
    loop := .reading }

/-! ## Maps: lookups after assignments and merges -/

theorem lookupEntry_setEntry (k : String) (v : Value) (l : List (String × Value)) (k' : String) :
    lookupEntry k' (setEntry k v l) = if k' = k then some v else lookupEntry k' l := by
  induction l with
  | nil =>
    by_cases h : k' = k
    · simp [setEntry, lookupEntry, h]
    · have h' : ¬ k = k' := fun e => h e.symm
      simp [setEntry, lookupEntry, h, h']
  | cons p rest ih =>
    obtain ⟨k1, v1⟩ := p
    by_cases h1 : k1 = k
    · subst h1
      by_cases h : k' = k1
      · simp [setEntry, lookupEntry, h]
      · have h' : ¬ k1 = k' := fun e => h e.symm
        simp [setEntry, lookupEntry, h, h']
    · by_cases h : k1 = k'
      · have h2 : ¬ k' = k := fun e => h1 (h.trans e)
        simp [setEntry, lookupEntry, h1, h, h2]
      · simp [setEntry, lookupEntry, h1, h, ih]

theorem lookupEntry_eq_none (k : String) (l : List (String × Value))
    (h : k ∉ l.map Prod.fst) : lookupEntry k l = none := by
  induction l with
  | nil => rfl
  | cons p rest ih =>
    obtain ⟨k1, v1⟩ := p
    simp only [List.map_cons, List.mem_cons, not_or] at h
    have h1 : ¬ k1 = k := fun e => h.1 e.symm
    simp [lookupEntry, h1, ih h.2]

theorem lookupEntry_isSome (k : String) (l : List (String × Value)) :
    (lookupEntry k l).isSome = true ↔ k ∈ l.map Prod.fst := by
  induction l with
  | nil => simp [lookupEntry]
  | cons p rest ih =>
    obtain ⟨k1, v1⟩ := p
    by_cases h1 : k1 = k
    · simp [lookupEntry, h1]
    · have h' : ¬ k = k1 := fun e => h1 e.symm
      simp [lookupEntry, h1, h', ih]

theorem GoMap.lookup_set (m : GoMap) (k : String) (v : Value) (k' : String) :
    (m.set k v).lookup k' = if k' = k then some v else m.lookup k' :=
  lookupEntry_setEntry k v m.entries k'

theorem GoMap.lookup_empty (k : String) : GoMap.empty.lookup k = none := rfl

/-- Assigning the entries of a duplicate-free list one after the other: a key of the
list gets the list's value, any other key keeps its own. -/
theorem lookup_foldl_set (kvs : List (String × Value)) (h : (kvs.map Prod.fst).Nodup)
    (m : GoMap) (k : String) :
    (kvs.foldl (fun res kv => res.set kv.1 kv.2) m).lookup k =
      match lookupEntry k kvs with
      | some v => some v
      | none => m.lookup k := by
  induction kvs generalizing m with
  | nil => simp [lookupEntry]
  | cons p rest ih =>
    obtain ⟨k1, v1⟩ := p
    simp only [List.map_cons, List.nodup_cons] at h
    rw [List.foldl_cons, ih h.2, GoMap.lookup_set]
    by_cases h1 : k1 = k
    · subst h1
      simp [lookupEntry, lookupEntry_eq_none k1 rest h.1]
    · have h' : ¬ k = k1 := fun e => h1 e.symm
      simp [lookupEntry, h1, h']

/-- The lookups of `merge(d, u)`: the value of `u` where `u` has the key, the value
of `d` elsewhere. -/
theorem lookup_merge (d : Option GoMap) (u : GoMap) (k : String) :
    (merge [d, some u]).lookup k =
      match u.lookup k with
      | some v => some v
      | none => lookupRef d k := by
  unfold merge
  simp only [List.foldl_cons, List.foldl_nil, rangeOf]
  rw [lookup_foldl_set u.entries u.nodup]
  cases d with
  | none => simp [rangeOf, GoMap.lookup, lookupRef, GoMap.empty, lookupEntry]
  | some d0 =>
    simp only [rangeOf, lookupRef]
    rw [lookup_foldl_set d0.entries d0.nodup]
    simp only [GoMap.lookup_empty, GoMap.lookup]
    cases lookupEntry k u.entries <;> cases lookupEntry k d0.entries <;> rfl

/-! ## Running the monad -/

@[simp] theorem pure_run {α : Type} (a : α) (s : World) : (pure a : Go α) s = .ok a s := rfl

@[simp] theorem bind_run {α β : Type} (x : Go α) (f : α → Go β) (s : World) :
    (x >>= f) s = match x s with
      | .ok a s' => f a s'
      | .panic e s' => .panic e s' := rfl

@[simp] theorem getW_run (s : World) : getW s = .ok s.w s := rfl

@[simp] theorem modifyW_run (f : Wattpilot → Wattpilot) (s : World) :
    modifyW f s = .ok () { s with w := f s.w } := rfl

@[simp] theorem emit_run (e : Effect) (s : World) :
    emit e s = .ok () { s with out := s.out ++ [e] } := rfl

@[simp] theorem goPanic_run {α : Type} (f : Fault) (s : World) :
    (goPanic f : Go α) s = .panic f s := rfl

/-! ## The status document -/

/-- C1.  A `deltaStatus` message, and a `fullStatus` message partial or complete,
whose `status` is the object `u`: the handler returns, and the document it leaves
maps every key of `u` to the value of `u` (whole, whatever the old value was),
every other key of the old document `d` to the value of `d`, and has no key that
is in neither. -/
theorem shallow_merge_on_status (s : World) (message : GoMap) (kvs : List (String × Value))
    (hstatus : message.index "status" = Value.map kvs) (r : Res Unit)
    (hr : r = onEventDeltaStatus message s ∨
      ∃ isPartial, message.index "partial" = Value.bool isPartial ∧
        r = onEventFullStatus message s) :
    r.value = some () ∧
    ∃ doc, r.world.w._status = some doc ∧
      (∀ k v, (GoMap.ofList kvs).lookup k = some v → doc.lookup k = some v) ∧
      (∀ k, (GoMap.ofList kvs).lookup k = none → doc.lookup k = lookupRef s.w._status k) ∧
      (∀ k, (GoMap.ofList kvs).lookup k = none → lookupRef s.w._status k = none →
        doc.lookup k = none) := by
  have hspec : ∀ doc, doc = merge [s.w._status, some (GoMap.ofList kvs)] →
      (∀ k v, (GoMap.ofList kvs).lookup k = some v → doc.lookup k = some v) ∧
      (∀ k, (GoMap.ofList kvs).lookup k = none → doc.lookup k = lookupRef s.w._status k) ∧
      (∀ k, (GoMap.ofList kvs).lookup k = none → lookupRef s.w._status k = none →
        doc.lookup k = none) := by
    intro doc hdoc
    subst hdoc
    refine ⟨?_, ?_, ?_⟩
    · intro k v hk
      rw [lookup_merge, hk]
    · intro k hk
      rw [lookup_merge, hk]
    · intro k hk hd
      rw [lookup_merge, hk, hd]
  rcases hr with hr | ⟨isPartial, hp, hr⟩
  · subst hr
    simp only [onEventDeltaStatus, hstatus, assertMap, bind_run, pure_run, modifyW_run,
      Res.value, Res.world, true_and]
    exact ⟨_, rfl, hspec _ rfl⟩
  · subst hr
    cases isPartial <;>
    · simp only [onEventFullStatus, hstatus, hp, assertMap, assertBool, bind_run, pure_run,
        modifyW_run, emit_run, Res.value, Res.world, true_and, if_true, if_false,
        Bool.false_eq_true]
      exact ⟨_, rfl, hspec _ rfl⟩

/-- Merge partiality on the example of the specification: `{"a": 1}` merged into
`{"a": 0, "b": 2}` gives `{"a": 1, "b": 2}`. -/
theorem merge_example :
    ((onEventDeltaStatus deltaA1 docWorld).world.w._status.map GoMap.entries) =
      some [("a", .float64 1), ("b", .float64 2)] := rfl

/-- No deep merge: `{"a": {"x": 5}}` merged into `{"a": {"x": 1, "y": 2}}` gives
`{"a": {"x": 5}}`, the nested `y` is gone. -/
theorem merge_nested_example :
    (merge [some (GoMap.ofList [("a", .map [("x", .float64 1), ("y", .float64 2)])]),
      some (GoMap.ofList [("a", .map [("x", .float64 5)])])]).entries =
      [("a", .map [("x", .float64 5)])] := rfl

theorem shallow_merge_on_status_witness :
    deltaA1.index "status" = Value.map [("a", .float64 1)] ∧
    ((onEventDeltaStatus deltaA1 docWorld).value = some () ∧
      ∃ doc, (onEventDeltaStatus deltaA1 docWorld).world.w._status = some doc ∧
        (∀ k v, (GoMap.ofList [("a", .float64 1)]).lookup k = some v → doc.lookup k = some v) ∧
        (∀ k, (GoMap.ofList [("a", .float64 1)]).lookup k = none →
          doc.lookup k = lookupRef docWorld.w._status k) ∧
        (∀ k, (GoMap.ofList [("a", .float64 1)]).lookup k = none →
          lookupRef docWorld.w._status k = none → doc.lookup k = none)) :=
  ⟨rfl, shallow_merge_on_status docWorld deltaA1 [("a", .float64 1)] rfl _ (Or.inl rfl)⟩

theorem GoMap.eq_of_entries {m m' : GoMap} (h : m.entries = m'.entries) : m = m' := by
  cases m; cases m'; cases h; rfl

theorem setEntry_of_not_mem (k : String) (v : Value) (l : List (String × Value))
    (h : k ∉ l.map Prod.fst) : setEntry k v l = l ++ [(k, v)] := by
  induction l with
  | nil => rfl
  | cons p rest ih =>
    obtain ⟨k1, v1⟩ := p
    simp only [List.map_cons, List.mem_cons, not_or] at h
    have h1 : ¬ k1 = k := fun e => h.1 e.symm
    simp [setEntry, h1, ih h.2]

theorem setEntry_of_lookup (k : String) (v : Value) (l : List (String × Value))
    (h : lookupEntry k l = some v) : setEntry k v l = l := by
  induction l with
  | nil => simp [lookupEntry] at h
  | cons p rest ih =>
    obtain ⟨k1, v1⟩ := p
    by_cases h1 : k1 = k
    · simp only [lookupEntry, h1, if_true, Option.some.injEq] at h
      simp [setEntry, h1, h]
    · simp only [lookupEntry, h1, if_false] at h
      simp [setEntry, h1, ih h]

theorem lookupEntry_of_mem (k : String) (v : Value) (l : List (String × Value))
    (hl : (l.map Prod.fst).Nodup) (h : (k, v) ∈ l) : lookupEntry k l = some v := by
  induction l with
  | nil => simp at h
  | cons p rest ih =>
    obtain ⟨k1, v1⟩ := p
    simp only [List.map_cons, List.nodup_cons] at hl
    rcases List.mem_cons.1 h with h | h
    · cases h
      simp [lookupEntry]
    · have hk : k ∈ rest.map Prod.fst := List.mem_map.2 ⟨(k, v), h, rfl⟩
      have h1 : ¬ k1 = k := fun e => hl.1 (e ▸ hk)
      simp [lookupEntry, h1, ih hl.2 h]

/-- Assigning the entries of a duplicate-free list into the empty map gives the
list back. -/
theorem entries_foldl_set (kvs : List (String × Value)) (m : GoMap)
    (h : (m.entries.map Prod.fst ++ kvs.map Prod.fst).Nodup) :
    (kvs.foldl (fun res kv => res.set kv.1 kv.2) m).entries = m.entries ++ kvs := by
  induction kvs generalizing m with
  | nil => simp
  | cons p rest ih =>
    obtain ⟨k1, v1⟩ := p
    have hk : k1 ∉ m.entries.map Prod.fst := by
      intro hmem
      have := (List.nodup_append.1 h).2.2
      exact this hmem (by simp)
    have hset : (m.set k1 v1).entries = m.entries ++ [(k1, v1)] :=
      setEntry_of_not_mem k1 v1 m.entries hk
    rw [List.foldl_cons, ih]
    · rw [hset]; simp
    · rw [hset]; simpa using h

/-- Assigning entries that the map already has, with the values it already has,
changes nothing. -/
theorem foldl_set_of_lookup (kvs : List (String × Value)) (m : GoMap)
    (h : ∀ k v, (k, v) ∈ kvs → m.lookup k = some v) :
    kvs.foldl (fun res kv => res.set kv.1 kv.2) m = m := by
  induction kvs with
  | nil => rfl
  | cons p rest ih =>
    obtain ⟨k1, v1⟩ := p
    have h1 : m.set k1 v1 = m :=
      GoMap.eq_of_entries (setEntry_of_lookup k1 v1 m.entries (h k1 v1 (by simp)))
    rw [List.foldl_cons, h1]
    exact ih fun k v hkv => h k v (List.mem_cons_of_mem _ hkv)

theorem merge_merge_same (d : Option GoMap) (u : GoMap) :
    merge [some (merge [d, some u]), some u] = merge [d, some u] := by
  have h1 : (merge [d, some u]).entries.foldl (fun res kv => res.set kv.1 kv.2) GoMap.empty
      = merge [d, some u] := by
    apply GoMap.eq_of_entries
    rw [entries_foldl_set]
    · rfl
    · simpa [GoMap.empty] using (merge [d, some u]).nodup
  have h2 : merge [some (merge [d, some u]), some u] =
      u.entries.foldl (fun res kv => res.set kv.1 kv.2)
        ((merge [d, some u]).entries.foldl (fun res kv => res.set kv.1 kv.2) GoMap.empty) := rfl
  rw [h2, h1]
  apply foldl_set_of_lookup
  intro k v hkv
  have hu : u.lookup k = some v := lookupEntry_of_mem k v u.entries u.nodup hkv
  rw [lookup_merge, hu]

/-- C2.  Merge idempotence: `merge(merge(d, u), u)` is `merge(d, u)`; handling the same
`deltaStatus` message twice in a row ends exactly as handling it once, and handling
the same `fullStatus` message twice in a row leaves the document that handling it
once leaves. -/
theorem merge_idempotent :
    (∀ (d : Option GoMap) (u : GoMap),
      merge [some (merge [d, some u]), some u] = merge [d, some u]) ∧
    (∀ (s : World) (message : GoMap),
      (onEventDeltaStatus message >>= fun _ => onEventDeltaStatus message) s =
        onEventDeltaStatus message s) ∧
    (∀ (s : World) (message : GoMap),
      ((onEventFullStatus message >>= fun _ => onEventFullStatus message) s).world.w._status =
        (onEventFullStatus message s).world.w._status) := by
  refine ⟨merge_merge_same, ?_, ?_⟩
  · intro s message
    cases hst : message.index "status" <;>
      simp [onEventDeltaStatus, hst, assertMap, merge_merge_same]
  · intro s message
    cases hp : message.index "partial" <;> cases hst : message.index "status" <;>
      simp [onEventFullStatus, hp, hst, assertMap, assertBool, Res.world]
    rename_i b kvs
    cases b <;> simp [merge_merge_same]

/-! ## Frame lemmas: what a method leaves alone -/

theorem Keeps.pure {α β : Type} (f : World → β) (a : α) : Keeps f (pure a : Go α) :=
  fun _ => rfl

theorem Keeps.bind {α γ β : Type} {f : World → β} {x : Go α} {g : α → Go γ}
    (hx : Keeps f x) (hg : ∀ a, Keeps f (g a)) : Keeps f (x >>= g) := by
  intro s
  have h := hx s
  simp only [bind_run]
  cases hxs : x s with
  | ok a s' =>
    rw [hxs] at h
    exact (hg a s').trans h
  | panic e s' =>
    rw [hxs] at h
    exact h

theorem Keeps.goPanic {α β : Type} (f : World → β) (e : Fault) : Keeps f (goPanic e : Go α) :=
  fun _ => rfl

theorem Keeps.getW {β : Type} (f : World → β) : Keeps f getW := fun _ => rfl

theorem Keeps.assertString {β : Type} (f : World → β) (v : Value) : Keeps f (assertString v) := by
  cases v <;> intro s <;> rfl

theorem Keeps.assertBool {β : Type} (f : World → β) (v : Value) : Keeps f (assertBool v) := by
  cases v <;> intro s <;> rfl

theorem Keeps.assertFloat64 {β : Type} (f : World → β) (v : Value) :
    Keeps f (assertFloat64 v) := by
  cases v <;> intro s <;> rfl

theorem Keeps.assertMap {β : Type} (f : World → β) (v : Value) : Keeps f (assertMap v) := by
  cases v <;> intro s <;> rfl

theorem Keeps.sliceOrPanic {β : Type} (f : World → β) (str : String) (lo hi : Int) :
    Keeps f (sliceOrPanic str lo hi) := by
  intro s
  unfold wattpilot.sliceOrPanic
  cases sliceString str lo hi <;> rfl

theorem Keeps.ite {α β : Type} {f : World → β} {c : Prop} [Decidable c] {x y : Go α}
    (hx : Keeps f x) (hy : Keeps f y) : Keeps f (if c then x else y) := by
  split
  · exact hx
  · exact hy

theorem Keeps.modifyW {β : Type} {f : World → β} {g : Wattpilot → Wattpilot}
    (h : ∀ s : World, f { s with w := g s.w } = f s) : Keeps f (modifyW g) := h

theorem Keeps.emit {β : Type} {f : World → β} {e : Effect}
    (h : ∀ s : World, f { s with out := s.out ++ [e] } = f s) : Keeps f (emit e) := h

theorem keeps_isInit_onEventHello (lib : CryptoLib) (message : GoMap) :
    Keeps isInit (onEventHello lib message) := by
  unfold onEventHello
  with_reducible repeat' first
    | exact Keeps.pure _ _
    | exact Keeps.assertString _ _
    | exact Keeps.assertBool _ _
    | exact Keeps.assertFloat64 _ _
    | exact Keeps.sliceOrPanic _ _ _ _
    | exact Keeps.getW _
    | apply Keeps.ite
    | apply Keeps.bind
    | intro _
  all_goals exact Keeps.modifyW (fun _ => rfl)

theorem Keeps.makeAndRead {β : Type} {f : World → β} (n : Int)
    (h : ∀ (s : World) (g : Nat → Byte), f { s with src := g } = f s) :
    Keeps f (makeAndRead n) := by
  intro s
  unfold wattpilot.makeAndRead
  split
  · rfl
  · exact h s _

theorem keeps_isInit_onEventAuthRequired (lib : CryptoLib) (message : GoMap) :
    Keeps isInit (onEventAuthRequired lib message) := by
  unfold onEventAuthRequired randomHexString onSendRepsonse
  with_reducible repeat' first
    | exact Keeps.pure _ _
    | exact Keeps.assertString _ _
    | exact Keeps.sliceOrPanic _ _ _ _
    | exact Keeps.getW _
    | apply Keeps.bind
    | intro _
  · exact Keeps.makeAndRead _ (fun _ _ => rfl)
  · exact Keeps.modifyW (fun _ => rfl)
  · exact Keeps.emit (fun _ => rfl)

theorem keeps_isInit_onEventFullStatus (message : GoMap)
    (h : message.index "partial" ≠ Value.bool false) :
    Keeps isInit (onEventFullStatus message) := by
  intro s
  cases hp : message.index "partial" with
  | bool b =>
    cases b with
    | false => exact absurd hp h
    | true =>
      cases hst : message.index "status" <;>
        simp [onEventFullStatus, hp, hst, assertMap, assertBool, Res.world, isInit]
  | _ => simp [onEventFullStatus, hp, assertBool, Res.world]

theorem keeps_isInit_onEventDeltaStatus (message : GoMap) :
    Keeps isInit (onEventDeltaStatus message) := by
  unfold onEventDeltaStatus
  with_reducible repeat' first
    | exact Keeps.assertMap _ _
    | apply Keeps.bind
    | intro _
  exact Keeps.modifyW (fun _ => rfl)

/-- A message other than a complete `fullStatus` leaves the flag `_isInitialized`
as it was, whatever else it is and however its handler ends. -/
theorem keeps_isInit_dispatch (lib : CryptoLib) (data : GoMap)
    (h : ¬ (data.index "type" = Value.string "fullStatus" ∧
      data.index "partial" = Value.bool false)) :
    Keeps isInit (dispatch lib data) := by
  unfold dispatch
  cases hty : data.lookup "type" with
  | none => exact Keeps.pure _ _
  | some msgType =>
    cases msgType with
    | string x =>
      have hx : data.index "type" = Value.string x := by simp [GoMap.index, hty]
      show Keeps isInit (match eventHandler lib x with
        | none => pure ()
        | some funcCall => funcCall data)
      unfold eventHandler
      split_ifs with h1 h2 h3 h4 h5 h6 h7 h8 h9
      · exact keeps_isInit_onEventHello lib data
      · exact keeps_isInit_onEventAuthRequired lib data
      · exact Keeps.pure _ _
      · exact Keeps.emit (fun _ => rfl)
      · exact Keeps.emit (fun _ => rfl)
      · exact keeps_isInit_onEventFullStatus data (fun hp => h ⟨h6 ▸ hx, hp⟩)
      · exact keeps_isInit_onEventDeltaStatus data
      · exact Keeps.pure _ _
      · exact Keeps.pure _ _
      · exact Keeps.pure _ _
    | _ => exact fun _ => rfl

theorem keeps_isInit_receiveHandler (lib : CryptoLib) (msgs : List GoMap)
    (h : ∀ data ∈ msgs, ¬ (data.index "type" = Value.string "fullStatus" ∧
      data.index "partial" = Value.bool false)) :
    Keeps isInit (receiveHandler lib msgs) := by
  induction msgs with
  | nil => exact Keeps.pure _ _
  | cons data rest ih =>
    unfold receiveHandler
    exact Keeps.bind (keeps_isInit_dispatch lib data (h data (by simp)))
      (fun _ => ih (fun d hd => h d (List.mem_cons_of_mem _ hd)))

/-- C3.  A new session that has read any messages, none of them a `fullStatus` with
`partial` false: `GetProperty`, `SetProperty` and `Status` return the not-ready error
(`Connection is not valid`, for `Status` `Connection is not initialzed`) for every
name and value, and leave the world as it was: nothing is sent, nothing changes. -/
theorem not_ready_before_complete_fullStatus (lib : CryptoLib) (host password : String)
    (src : Nat → Byte) (msgs : List GoMap)
    (h : ∀ data ∈ msgs, ¬ (data.index "type" = Value.string "fullStatus" ∧
      data.index "partial" = Value.bool false))
    (name : String) (value : Value) :
    GetProperty name (receiveHandler lib msgs (newWorld host password src)).world =
      .ok (Value.nil, some ⟨"Connection is not valid"⟩)
        (receiveHandler lib msgs (newWorld host password src)).world ∧
    SetProperty name value (receiveHandler lib msgs (newWorld host password src)).world =
      .ok (some ⟨"Connection is not valid"⟩)
        (receiveHandler lib msgs (newWorld host password src)).world ∧
    Status (receiveHandler lib msgs (newWorld host password src)).world =
      .ok (none, some ⟨"Connection is not initialzed"⟩)
        (receiveHandler lib msgs (newWorld host password src)).world := by
  have hinit : (receiveHandler lib msgs (newWorld host password src)).world.w._isInitialized
      = false := keeps_isInit_receiveHandler lib msgs h (newWorld host password src)
  refine ⟨?_, ?_, ?_⟩
  · simp [GetProperty, hinit]
  · simp [SetProperty, hinit]
  · simp [Status, hinit]

theorem not_ready_before_complete_fullStatus_witness :
    GetProperty "amp" (receiveHandler zeroLib
        [helloMsg, authRequiredMsg, authSuccessMsg, partialStatusMsg, deltaA1]
        (newWorld "wattpilot.local" "secret" (fun _ => 0))).world =
      .ok (Value.nil, some ⟨"Connection is not valid"⟩) (receiveHandler zeroLib
        [helloMsg, authRequiredMsg, authSuccessMsg, partialStatusMsg, deltaA1]
        (newWorld "wattpilot.local" "secret" (fun _ => 0))).world ∧
    SetProperty "amp" (Value.int 6) (receiveHandler zeroLib
        [helloMsg, authRequiredMsg, authSuccessMsg, partialStatusMsg, deltaA1]
        (newWorld "wattpilot.local" "secret" (fun _ => 0))).world =
      .ok (some ⟨"Connection is not valid"⟩) (receiveHandler zeroLib
        [helloMsg, authRequiredMsg, authSuccessMsg, partialStatusMsg, deltaA1]
        (newWorld "wattpilot.local" "secret" (fun _ => 0))).world ∧
    Status (receiveHandler zeroLib
        [helloMsg, authRequiredMsg, authSuccessMsg, partialStatusMsg, deltaA1]
        (newWorld "wattpilot.local" "secret" (fun _ => 0))).world =
      .ok (none, some ⟨"Connection is not initialzed"⟩) (receiveHandler zeroLib
        [helloMsg, authRequiredMsg, authSuccessMsg, partialStatusMsg, deltaA1]
        (newWorld "wattpilot.local" "secret" (fun _ => 0))).world :=
  not_ready_before_complete_fullStatus zeroLib "wattpilot.local" "secret" (fun _ => 0)
    [helloMsg, authRequiredMsg, authSuccessMsg, partialStatusMsg, deltaA1]
    (by
      intro data hd
      simp only [List.mem_cons, List.mem_singleton, List.not_mem_nil, or_false] at hd
      rcases hd with rfl | rfl | rfl | rfl | rfl
      · rintro ⟨h1, _⟩
        have e : helloMsg.index "type" = Value.string "hello" := rfl
        rw [e] at h1
        exact absurd (Value.string.inj h1) (by decide)
      · rintro ⟨h1, _⟩
        have e : authRequiredMsg.index "type" = Value.string "authRequired" := rfl
        rw [e] at h1
        exact absurd (Value.string.inj h1) (by decide)
      · rintro ⟨h1, _⟩
        have e : authSuccessMsg.index "type" = Value.string "authSuccess" := rfl
        rw [e] at h1
        exact absurd (Value.string.inj h1) (by decide)
      · rintro ⟨_, h2⟩
        have e : partialStatusMsg.index "partial" = Value.bool true := rfl
        rw [e] at h2
        exact absurd (Value.bool.inj h2) (by decide)
      · rintro ⟨h1, _⟩
        have e : deltaA1.index "type" = Value.string "deltaStatus" := rfl
        rw [e] at h1
        exact absurd (Value.string.inj h1) (by decide))
    "amp" (Value.int 6)

/-! ## Property access -/

theorem notReady_ne_notFound (name : String) :
    (⟨"Connection is not valid"⟩ : GoError) ≠ ⟨"Could not find " ++ name⟩ := by
  intro h
  have h1 : "Connection is not valid" = "Could not find " ++ name := congrArg GoError.msg h
  have h2 := congrArg String.data h1
  rw [String.data_append] at h2
  simp at h2

/-- C4.  `GetProperty(name)` always returns and leaves the world as it was; its error
is the not-ready error exactly when the session is not initialized, the not-found
error exactly when the session is initialized and `name` is not a key of the
document, and there is no error exactly when the session is initialized and `name`
is a key, in which case the value returned is the one stored under `name`. -/
theorem getProperty_decided_by_state (s : World) (name : String) :
    ∃ val err, GetProperty name s = .ok (val, err) s ∧
      (err = some ⟨"Connection is not valid"⟩ ↔ s.w._isInitialized = false) ∧
      (err = some ⟨"Could not find " ++ name⟩ ↔
        (s.w._isInitialized = true ∧ lookupRef s.w._status name = none)) ∧
      (err = none ↔ (s.w._isInitialized = true ∧ lookupRef s.w._status name = some val)) := by
  cases hinit : s.w._isInitialized with
  | false =>
    refine ⟨Value.nil, some ⟨"Connection is not valid"⟩, ?_, ?_, ?_, ?_⟩
    · simp [GetProperty, hinit]
    · simp
    · simpa using (notReady_ne_notFound name)
    · simp
  | true =>
    cases hk : lookupRef s.w._status name with
    | none =>
      refine ⟨Value.nil, some ⟨"Could not find " ++ name⟩, ?_, ?_, ?_, ?_⟩
      · simp [GetProperty, hinit, hasKey, hk]
      · simpa using (notReady_ne_notFound name).symm
      · simp
      · simp
    | some v =>
      refine ⟨v, none, ?_, ?_, ?_, ?_⟩
      · simp [GetProperty, hinit, hasKey, hk]
      · simp
      · simp
      · simp

theorem keys_set_of_lookup (m : GoMap) (k : String) (v : Value)
    (h : (m.lookup k).isSome = true) : (m.set k v).keys = m.keys := by
  unfold GoMap.keys GoMap.set
  simp only
  rw [keys_setEntry, if_pos ((lookupEntry_isSome k m.entries).1 h)]

/-- C5.  On an initialized session, `SetProperty(name, value)` with a `name` that is
not a key of the document returns the not-found error and leaves the world as it
was; and whatever the session, the name and the value, the document has the same
keys after a `SetProperty` call as before it. -/
theorem setProperty_unknown_key (s : World) (name : String) (value : Value)
    (hinit : s.w._isInitialized = true) (hkey : lookupRef s.w._status name = none) :
    SetProperty name value s = .ok (some ⟨"Could not find " ++ name⟩) s ∧
    (∀ (s' : World) (n : String) (v : Value),
      keysRef (SetProperty n v s').world.w._status = keysRef s'.w._status) := by
  constructor
  · simp [SetProperty, hinit, hasKey, hkey]
  · intro s' n v
    cases hi : s'.w._isInitialized with
    | false => simp [SetProperty, hi, Res.world]
    | true =>
      cases hst : s'.w._status with
      | none => simp [SetProperty, hi, hasKey, hst, lookupRef, Res.world]
      | some m =>
        cases hk : m.lookup n with
        | none => simp [SetProperty, hi, hasKey, hst, lookupRef, hk, Res.world]
        | some old =>
          have hks : (m.set n v).keys = m.keys := keys_set_of_lookup m n v (by simp [hk])
          simp [SetProperty, hi, hasKey, hst, lookupRef, hk, Res.world, sendUpdate, getRequestId,
            onSendRepsonse, assignStatus, keysRef, hks]

theorem setProperty_unknown_key_witness :
    SetProperty "nonexistent" (Value.float64 1) docWorld =
      .ok (some ⟨"Could not find " ++ "nonexistent"⟩) docWorld ∧
    (∀ (s' : World) (n : String) (v : Value),
      keysRef (SetProperty n v s').world.w._status = keysRef s'.w._status) :=
  setProperty_unknown_key docWorld "nonexistent" (Value.float64 1) rfl rfl

/-- The world `SetProperty` leaves on an initialized session whose document has the
key: the counter one further, the document assigned at `name`, one message more. -/
theorem setProperty_run_known (s : World) (name : String) (value old : Value) (doc : GoMap)
    (hinit : s.w._isInitialized = true) (hdoc : s.w._status = some doc)
    (hkey : doc.lookup name = some old) :
    SetProperty name value s = .ok none
      { w := { s.w with _requestId := wrapInt (s.w._requestId + 1)
                        _status := some (doc.set name value) },
        src := s.src,
        out := s.out ++ [.writeMessage (GoMap.ofList [("type", .string "setValue"),
          ("requestId", .int s.w._requestId), ("key", .string name), ("value", value)])] } := by
  simp [SetProperty, hinit, hasKey, hdoc, lookupRef, hkey, sendUpdate, getRequestId,
    onSendRepsonse, assignStatus, GoMap.ofList]

theorem getProperty_world (s : World) (name : String) : (GetProperty name s).world = s := by
  cases hi : s.w._isInitialized with
  | false => simp [GetProperty, hi, Res.world]
  | true => cases hk : hasKey s.w._status name <;> simp [GetProperty, hi, hk, Res.world]

/-- C6.  On an initialized session whose document `doc` has the key `name`,
`SetProperty(name, value)` returns no error; it writes exactly one message,
`{type: "setValue", requestId, key: name, value: value}` with the current counter as
`requestId`; afterwards the document maps `name` to `value` and every other key to
its previous value.  The write to the document comes after the message is sent
(`sendUpdate` returns in a world with the old document, and `SetProperty` is the
assignment run in that world), with no message read in between. -/
theorem setProperty_known_key (s : World) (name : String) (value old : Value) (doc : GoMap)
    (hinit : s.w._isInitialized = true) (hdoc : s.w._status = some doc)
    (hkey : doc.lookup name = some old) :
    SetProperty name value s = .ok none
      { w := { s.w with _requestId := wrapInt (s.w._requestId + 1)
                        _status := some (doc.set name value) },
        src := s.src,
        out := s.out ++ [.writeMessage (GoMap.ofList [("type", .string "setValue"),
          ("requestId", .int s.w._requestId), ("key", .string name), ("value", value)])] } ∧
    (doc.set name value).lookup name = some value ∧
    (∀ k, k ≠ name → (doc.set name value).lookup k = doc.lookup k) ∧
    (∃ s1, sendUpdate name value s = .ok none s1 ∧ s1.w._status = s.w._status ∧
      SetProperty name value s = (assignStatus name value >>= fun _ => pure none) s1) := by
  refine ⟨setProperty_run_known s name value old doc hinit hdoc hkey, ?_, ?_, ?_⟩
  · simp [GoMap.lookup_set]
  · intro k hk
    simp [GoMap.lookup_set, hk]
  · refine ⟨_, rfl, ?_, ?_⟩
    · simp [hdoc]
    · simp [SetProperty, hinit, hasKey, hdoc, lookupRef, hkey, sendUpdate, getRequestId,
        onSendRepsonse, assignStatus]

theorem setProperty_known_key_witness :
    SetProperty "a" (Value.int 16) docWorld = .ok none
      { w := { docWorld.w with
          _requestId := wrapInt (docWorld.w._requestId + 1)
          _status := some ((GoMap.ofList [("a", .float64 0), ("b", .float64 2)]).set "a"
            (Value.int 16)) },
        src := docWorld.src,
        out := docWorld.out ++ [.writeMessage (GoMap.ofList [("type", .string "setValue"),
          ("requestId", .int docWorld.w._requestId), ("key", .string "a"),
          ("value", Value.int 16)])] } ∧
    ((GoMap.ofList [("a", .float64 0), ("b", .float64 2)]).set "a" (Value.int 16)).lookup "a" =
      some (Value.int 16) ∧
    (∀ k, k ≠ "a" →
      ((GoMap.ofList [("a", .float64 0), ("b", .float64 2)]).set "a" (Value.int 16)).lookup k =
        (GoMap.ofList [("a", .float64 0), ("b", .float64 2)]).lookup k) ∧
    (∃ s1, sendUpdate "a" (Value.int 16) docWorld = .ok none s1 ∧
      s1.w._status = docWorld.w._status ∧
      SetProperty "a" (Value.int 16) docWorld =
        (assignStatus "a" (Value.int 16) >>= fun _ => pure none) s1) :=
  setProperty_known_key docWorld "a" (Value.int 16) (Value.float64 0)
    (GoMap.ofList [("a", .float64 0), ("b", .float64 2)]) rfl rfl rfl

/-! ## The request counter -/

theorem wrapInt_of_lt (x : Int) (h0 : 0 ≤ x) (h1 : x < 2 ^ 63) : wrapInt x = x := by
  unfold wrapInt
  norm_num at h1 ⊢
  omega

theorem wrapInt_succ (x : Int) : wrapInt (wrapInt x + 1) = wrapInt (x + 1) := by
  unfold wrapInt
  norm_num
  omega

theorem setValueIds_append (a b : List Effect) :
    setValueIds (a ++ b) = setValueIds a ++ setValueIds b := by
  induction a with
  | nil => rfl
  | cons e rest ih =>
    cases e with
    | writeMessage message =>
      rw [List.cons_append]
      cases hty : message.index "type" with
      | string t => by_cases ht : t = "setValue" <;> simp [setValueIds, hty, ht, ih]
      | _ => simp [setValueIds, hty, ih]
    | connected b => simpa [setValueIds] using ih
    | initialized b => simpa [setValueIds] using ih

/-- An effect that is not a `setValue` message adds no `requestId`. -/
theorem idsView_emit (s : World) (e : Effect) (h : setValueIds [e] = []) :
    idsView { s with out := s.out ++ [e] } = idsView s := by
  simp [idsView, setValueIds_append, h]

theorem keeps_idsView_onEventHello (lib : CryptoLib) (message : GoMap) :
    Keeps idsView (onEventHello lib message) := by
  unfold onEventHello
  with_reducible repeat' first
    | exact Keeps.pure _ _
    | exact Keeps.assertString _ _
    | exact Keeps.assertBool _ _
    | exact Keeps.assertFloat64 _ _
    | exact Keeps.sliceOrPanic _ _ _ _
    | exact Keeps.getW _
    | apply Keeps.ite
    | apply Keeps.bind
    | intro _
  all_goals exact Keeps.modifyW (fun _ => rfl)

theorem keeps_idsView_onEventAuthRequired (lib : CryptoLib) (message : GoMap) :
    Keeps idsView (onEventAuthRequired lib message) := by
  unfold onEventAuthRequired randomHexString onSendRepsonse
  with_reducible repeat' first
    | exact Keeps.pure _ _
    | exact Keeps.assertString _ _
    | exact Keeps.sliceOrPanic _ _ _ _
    | exact Keeps.getW _
    | apply Keeps.bind
    | intro _
  · exact Keeps.makeAndRead _ (fun _ _ => rfl)
  · exact Keeps.modifyW (fun _ => rfl)
  · exact Keeps.emit (fun s => idsView_emit s _ rfl)

theorem keeps_idsView_onEventFullStatus (message : GoMap) :
    Keeps idsView (onEventFullStatus message) := by
  unfold onEventFullStatus
  with_reducible repeat' first
    | exact Keeps.pure _ _
    | exact Keeps.assertBool _ _
    | exact Keeps.assertMap _ _
    | apply Keeps.ite
    | apply Keeps.bind
    | intro _
  · exact Keeps.modifyW (fun _ => rfl)
  · exact Keeps.emit (fun s => idsView_emit s _ rfl)
  · exact Keeps.modifyW (fun _ => rfl)

theorem keeps_idsView_onEventDeltaStatus (message : GoMap) :
    Keeps idsView (onEventDeltaStatus message) := by
  unfold onEventDeltaStatus
  with_reducible repeat' first
    | exact Keeps.assertMap _ _
    | apply Keeps.bind
    | intro _
  exact Keeps.modifyW (fun _ => rfl)

/-- No inbound message touches the request counter or sends a `setValue`. -/
theorem keeps_idsView_dispatch (lib : CryptoLib) (data : GoMap) :
    Keeps idsView (dispatch lib data) := by
  unfold dispatch
  cases hty : data.lookup "type" with
  | none => exact Keeps.pure _ _
  | some msgType =>
    cases msgType with
    | string x =>
      show Keeps idsView (match eventHandler lib x with
        | none => pure ()
        | some funcCall => funcCall data)
      unfold eventHandler
      split_ifs
      · exact keeps_idsView_onEventHello lib data
      · exact keeps_idsView_onEventAuthRequired lib data
      · exact Keeps.pure _ _
      · exact Keeps.emit (fun s => idsView_emit s _ rfl)
      · exact Keeps.emit (fun s => idsView_emit s _ rfl)
      · exact keeps_idsView_onEventFullStatus data
      · exact keeps_idsView_onEventDeltaStatus data
      · exact Keeps.pure _ _
      · exact Keeps.pure _ _
      · exact Keeps.pure _ _
    | _ => exact fun _ => rfl

/-- What `SetProperty` does to the counter and to the `requestId`s sent: nothing, or
one more `requestId`, the counter, and the counter one further. -/
theorem idsView_setProperty (s : World) (name : String) (value : Value) :
    idsView (SetProperty name value s).world = idsView s ∨
    idsView (SetProperty name value s).world =
      (wrapInt (s.w._requestId + 1), setValueIds s.out ++ [Value.int s.w._requestId]) := by
  cases hi : s.w._isInitialized with
  | false => left; simp [SetProperty, hi, Res.world]
  | true =>
    cases hst : s.w._status with
    | none => left; simp [SetProperty, hi, hasKey, hst, lookupRef, Res.world]
    | some m =>
      cases hk : m.lookup name with
      | none => left; simp [SetProperty, hi, hasKey, hst, lookupRef, hk, Res.world]
      | some old =>
        right
        rw [setProperty_run_known s name value old m hi hst hk]
        simp only [Res.world, idsView, setValueIds_append]
        rfl

theorem idsOk_runStep (lib : CryptoLib) (step : Step) (s : World) (h : IdsOk (idsView s)) :
    IdsOk (idsView (runStep lib step s).world) := by
  cases step with
  | receive data => rw [show runStep lib (.receive data) = dispatch lib data from rfl,
      keeps_idsView_dispatch lib data s]; exact h
  | getProperty name =>
    have : (runStep lib (.getProperty name) s).world = s := by
      have hg := getProperty_world s name
      simp only [runStep, bind_run]
      cases hr : GetProperty name s with
      | ok a s' => rw [hr] at hg; exact hg
      | panic e s' => rw [hr] at hg; exact hg
    rw [this]; exact h
  | status =>
    have : (runStep lib .status s).world = s := by
      cases hi : s.w._isInitialized <;> simp [runStep, Status, hi, Res.world]
    rw [this]; exact h
  | setProperty name value =>
    have hw : (runStep lib (.setProperty name value) s).world = (SetProperty name value s).world := by
      simp only [runStep, bind_run]
      cases SetProperty name value s <;> rfl
    rw [hw]
    rcases idsView_setProperty s name value with h1 | h1
    · rw [h1]; exact h
    · rw [h1]
      obtain ⟨n, hn1, hn2⟩ := h
      refine ⟨n + 1, ?_, ?_⟩
      · show wrapInt (s.w._requestId + 1) = _
        have : s.w._requestId = wrapInt n := hn1
        rw [this, wrapInt_succ]; push_cast; rfl
      · show setValueIds s.out ++ [Value.int s.w._requestId] = _
        have e1 : s.w._requestId = wrapInt n := hn1
        have e2 : setValueIds s.out = _ := hn2
        rw [e1, e2, List.range_succ, List.map_append]; rfl

theorem idsOk_run (lib : CryptoLib) (steps : List Step) (s : World) (h : IdsOk (idsView s)) :
    IdsOk (idsView (run lib steps s).world) := by
  induction steps generalizing s with
  | nil => exact h
  | cons step rest ih =>
    have h1 := idsOk_runStep lib step s h
    simp only [run, bind_run]
    cases hs : runStep lib step s with
    | ok a s' => rw [hs] at h1; exact ih s' h1
    | panic e s' => rw [hs] at h1; exact h1

/-- The two ways a `SetProperty` call ends: with an error in the world it started in,
or without one, the document having the key, one message written with the counter as
`requestId`. -/
theorem setProperty_cases (s : World) (name : String) (value : Value) :
    (∃ e, SetProperty name value s = .ok (some e) s) ∨
    SetProperty name value s = .ok none
      { w := { s.w with _requestId := wrapInt (s.w._requestId + 1)
                        _status := (SetProperty name value s).world.w._status },
        src := s.src,
        out := s.out ++ [.writeMessage (GoMap.ofList [("type", .string "setValue"),
          ("requestId", .int s.w._requestId), ("key", .string name), ("value", value)])] } := by
  cases hi : s.w._isInitialized with
  | false => left; exact ⟨⟨"Connection is not valid"⟩, by simp [SetProperty, hi]⟩
  | true =>
    cases hst : s.w._status with
    | none =>
      left
      exact ⟨⟨"Could not find " ++ name⟩, by simp [SetProperty, hi, hasKey, hst, lookupRef]⟩
    | some m =>
      cases hk : m.lookup name with
      | none =>
        left
        exact ⟨⟨"Could not find " ++ name⟩,
          by simp [SetProperty, hi, hasKey, hst, lookupRef, hk]⟩
      | some old =>
        right
        have hrun := setProperty_run_known s name value old m hi hst hk
        rw [hrun]
        rfl

/-- What a step does to the counter and to the `requestId`s sent: a `SetProperty` call
that returns no error sends the counter and increments it, every other step leaves
both. -/
theorem idsView_runStep (lib : CryptoLib) (step : Step) (s : World) :
    idsView (runStep lib step s).world =
      if setSucceeds step s then
        (wrapInt (s.w._requestId + 1), setValueIds s.out ++ [Value.int s.w._requestId])
      else idsView s := by
  cases step with
  | receive data =>
    rw [show runStep lib (.receive data) = dispatch lib data from rfl,
      keeps_idsView_dispatch lib data s]
    rfl
  | getProperty name =>
    have : (runStep lib (.getProperty name) s).world = s := by
      have hg := getProperty_world s name
      simp only [runStep, bind_run]
      cases hr : GetProperty name s with
      | ok a s' => rw [hr] at hg; exact hg
      | panic e s' => rw [hr] at hg; exact hg
    rw [this]; rfl
  | status =>
    have : (runStep lib .status s).world = s := by
      cases hi : s.w._isInitialized <;> simp [runStep, Status, hi, Res.world]
    rw [this]; rfl
  | setProperty name value =>
    have hw : (runStep lib (.setProperty name value) s).world =
        (SetProperty name value s).world := by
      simp only [runStep, bind_run]
      cases SetProperty name value s <;> rfl
    rw [hw]
    rcases setProperty_cases s name value with ⟨e, he⟩ | hok
    · simp only [setSucceeds, he, Res.world]
      rfl
    · have hs : setSucceeds (.setProperty name value) s = true := by
        simp only [setSucceeds]
        rw [hok]
      rw [hs, if_pos rfl, hok]
      simp only [Res.world, idsView, setValueIds_append]
      rfl

/-- From a world whose counter is `c` with the `requestId`s `0, ..., c-1` sent, a
history ends with the counter and the `requestId`s further by the number of its
`SetProperty` calls that returned no error. -/
theorem ids_run (lib : CryptoLib) (steps : List Step) (s : World) (c : Nat)
    (h1 : s.w._requestId = wrapInt c)
    (h2 : setValueIds s.out = (List.range c).map (fun i : Nat => Value.int (wrapInt i))) :
    (run lib steps s).world.w._requestId = wrapInt ((c + successfulSets lib steps s : Nat)) ∧
    setValueIds (run lib steps s).world.out =
      (List.range (c + successfulSets lib steps s)).map (fun i : Nat => Value.int (wrapInt i)) := by
  induction steps generalizing s c with
  | nil => exact ⟨h1, h2⟩
  | cons step rest ih =>
    have hv := idsView_runStep lib step s
    have hstep : ∀ s1 : World, (runStep lib step s).world = s1 →
        s1.w._requestId = wrapInt ((c + (if setSucceeds step s then 1 else 0) : Nat)) ∧
        setValueIds s1.out = (List.range (c + (if setSucceeds step s then 1 else 0))).map
          (fun i : Nat => Value.int (wrapInt i)) := by
      intro s1 hs1
      rw [hs1] at hv
      cases hb : setSucceeds step s with
      | false =>
        rw [hb] at hv
        have e1 : s1.w._requestId = s.w._requestId := congrArg Prod.fst hv
        have e2 : setValueIds s1.out = setValueIds s.out := congrArg Prod.snd hv
        simp only [Bool.false_eq_true, if_false, Nat.add_zero]
        exact ⟨e1.trans h1, e2.trans h2⟩
      | true =>
        rw [hb] at hv
        have e1 : s1.w._requestId = wrapInt (s.w._requestId + 1) := congrArg Prod.fst hv
        have e2 : setValueIds s1.out = setValueIds s.out ++ [Value.int s.w._requestId] :=
          congrArg Prod.snd hv
        simp only [if_true]
        constructor
        · rw [e1, h1, wrapInt_succ]; push_cast; rfl
        · rw [e2, h1, h2, List.range_succ, List.map_append]; rfl
    simp only [run, bind_run, successfulSets]
    cases hs : runStep lib step s with
    | ok a s' =>
      obtain ⟨k1, k2⟩ := hstep s' (by rw [hs]; rfl)
      have := ih s' _ k1 k2
      simp only [Nat.add_assoc] at this ⊢
      exact this
    | panic e s' =>
      obtain ⟨k1, k2⟩ := hstep s' (by rw [hs]; rfl)
      simp only [Nat.add_zero]
      exact ⟨k1, k2⟩

/-- C7.  The request counter of a new session is 0.  After any history of the
session (messages read and calls made, in any order) in which `n` calls of
`SetProperty` returned no error, the `requestId`s of the `setValue` messages written
are `0, 1, ..., n-1` in this order and the counter is `n`, as 64-bit integers; while
`n` is at most `2^63` these are the integers themselves, strictly increasing and
without repetition.  A `SetProperty` call that returns no error then writes the
`setValue` message with `requestId` `n` and leaves the counter at `n + 1`.  In any
world, a `SetProperty` call that returns no error writes exactly one message, the
`setValue` message whose `requestId` is the counter, and increments the counter by
one; a call that returns an error writes nothing and leaves the counter. -/
theorem requestIds_count_from_zero (lib : CryptoLib) (host password : String)
    (src : Nat → Byte) (steps : List Step) :
    (NewWattpilot host password)._requestId = 0 ∧
    (∃ n : Nat, n = successfulSets lib steps (newWorld host password src) ∧
      (run lib steps (newWorld host password src)).world.w._requestId = wrapInt n ∧
      setValueIds (run lib steps (newWorld host password src)).world.out =
        (List.range n).map (fun i : Nat => Value.int (wrapInt i)) ∧
      (n ≤ 2 ^ 63 → setValueIds (run lib steps (newWorld host password src)).world.out =
        (List.range n).map (fun i : Nat => Value.int i)) ∧
      (∀ (name : String) (value : Value) (s' : World),
        SetProperty name value (run lib steps (newWorld host password src)).world =
          .ok none s' →
        s'.out = (run lib steps (newWorld host password src)).world.out ++
          [.writeMessage (GoMap.ofList [("type", .string "setValue"),
            ("requestId", .int (wrapInt n)), ("key", .string name), ("value", value)])] ∧
        s'.w._requestId = wrapInt (n + 1))) ∧
    (∀ (s : World) (name : String) (value : Value),
      (∀ s', SetProperty name value s = .ok none s' →
        s'.out = s.out ++ [.writeMessage (GoMap.ofList [("type", .string "setValue"),
          ("requestId", .int s.w._requestId), ("key", .string name), ("value", value)])] ∧
        s'.w._requestId = wrapInt (s.w._requestId + 1)) ∧
      (∀ e s', SetProperty name value s = .ok (some e) s' →
        s'.out = s.out ∧ s'.w._requestId = s.w._requestId) ∧
      (idsView (SetProperty name value s).world = idsView s ∨
        idsView (SetProperty name value s).world =
          (wrapInt (s.w._requestId + 1), setValueIds s.out ++ [Value.int s.w._requestId]))) := by
  have hcall : ∀ (s : World) (name : String) (value : Value) (s' : World),
      SetProperty name value s = .ok none s' →
      s'.out = s.out ++ [.writeMessage (GoMap.ofList [("type", .string "setValue"),
        ("requestId", .int s.w._requestId), ("key", .string name), ("value", value)])] ∧
      s'.w._requestId = wrapInt (s.w._requestId + 1) := by
    intro s name value s' h
    rcases setProperty_cases s name value with ⟨e, he⟩ | hok
    · rw [he] at h; cases h
    · rw [hok] at h
      cases h
      exact ⟨rfl, rfl⟩
  refine ⟨rfl, ?_, fun s name value => ⟨hcall s name value, ?_, idsView_setProperty s name value⟩⟩
  · obtain ⟨h1, h2⟩ := ids_run lib steps (newWorld host password src) 0 rfl rfl
    rw [Nat.zero_add] at h1 h2
    refine ⟨_, rfl, h1, h2, fun hn => ?_, fun name value s' h => ?_⟩
    · rw [h2]
      apply List.map_congr_left
      intro i hi
      have hi' : i < successfulSets lib steps (newWorld host password src) := List.mem_range.1 hi
      rw [wrapInt_of_lt (i : Int) (by omega) (by
        have : (i : Int) < (2 : Int) ^ 63 := by
          have h3 : i < 2 ^ 63 := by omega
          exact_mod_cast h3
        exact this)]
    · obtain ⟨k1, k2⟩ := hcall _ name value s' h
      rw [k1, k2, h1, wrapInt_succ]
      exact ⟨rfl, rfl⟩
  · intro e s' h
    rcases setProperty_cases s name value with ⟨e', he⟩ | hok
    · rw [he] at h; cases h
      exact ⟨rfl, rfl⟩
    · rw [hok] at h; cases h

/-- On a ready session, of the calls `SetProperty("a")`, `GetProperty("a")`,
`SetProperty("zz")` and `SetProperty("b")` two return no error. -/
theorem successfulSets_example :
    successfulSets zeroLib [.setProperty "a" (.int 6), .getProperty "a",
      .setProperty "zz" (.int 1), .setProperty "b" (.int 7)] docWorld = 2 := rfl

/-- Two `SetProperty` calls on a ready session carry the `requestId`s 0 and 1. -/
theorem requestIds_example :
    setValueIds (run zeroLib [.setProperty "a" (.int 6), .getProperty "a",
      .setProperty "zz" (.int 1), .setProperty "b" (.int 7)] docWorld).world.out =
      [Value.int 0, Value.int 1] := rfl

/-! ## The encoders -/

theorem base64Chars_length (l : List Byte) :
    (base64Chars l).length = 4 * ((l.length + 2) / 3) := by
  induction l using base64Chars.induct with
  | case1 a b c rest ih =>
    simp only [base64Chars, List.length_cons, ih]
    omega
  | case2 a b => simp [base64Chars]
  | case3 a => simp [base64Chars]
  | case4 => simp [base64Chars]

theorem hextable_getD_mem (i : Nat) (h : i < 16) : hextable.getD i '0' ∈ hextable := by
  interval_cases i <;> simp [hextable]

theorem encodeDigit_mem (i : Nat) : encodeDigit i ∈ encodeStd := by
  unfold encodeDigit
  have h : i % 64 < encodeStd.length := by
    have : encodeStd.length = 64 := rfl
    omega
  rw [List.getD_eq_getElem _ _ h]
  exact List.getElem_mem h

theorem hexEncodeToString_length (b : List Byte) :
    (hexEncodeToString b).length = 2 * b.length := by
  unfold hexEncodeToString
  rw [String.length_mk]
  induction b with
  | nil => rfl
  | cons v rest ih => simp only [List.flatMap_cons, List.length_append, ih, List.length_cons,
      List.length_nil]; omega

theorem hexEncodeToString_mem (b : List Byte) (c : Char) (h : c ∈ (hexEncodeToString b).data) :
    c ∈ hextable := by
  unfold hexEncodeToString at h
  simp only [List.mem_flatMap, List.mem_cons, List.mem_singleton, List.not_mem_nil,
    or_false] at h
  obtain ⟨v, -, hc | hc⟩ := h
  · rw [hc]
    exact hextable_getD_mem _ (by have := v.toNat_lt; omega)
  · rw [hc]
    exact hextable_getD_mem _ (Nat.mod_lt _ (by norm_num))

theorem base64Chars_mem (l : List Byte) (c : Char) (h : c ∈ base64Chars l) :
    c ∈ encodeStd ∨ c = '=' := by
  induction l using base64Chars.induct with
  | case1 a b c' rest ih =>
    simp only [base64Chars, List.mem_cons] at h
    rcases h with h | h | h | h | h
    · exact Or.inl (h ▸ encodeDigit_mem _)
    · exact Or.inl (h ▸ encodeDigit_mem _)
    · exact Or.inl (h ▸ encodeDigit_mem _)
    · exact Or.inl (h ▸ encodeDigit_mem _)
    · exact ih h
  | case2 a b =>
    simp only [base64Chars, List.mem_cons, List.mem_singleton, List.not_mem_nil, or_false] at h
    rcases h with h | h | h | h
    · exact Or.inl (h ▸ encodeDigit_mem _)
    · exact Or.inl (h ▸ encodeDigit_mem _)
    · exact Or.inl (h ▸ encodeDigit_mem _)
    · exact Or.inr h
  | case3 a =>
    simp only [base64Chars, List.mem_cons, List.mem_singleton, List.not_mem_nil, or_false] at h
    rcases h with h | h | h | h
    · exact Or.inl (h ▸ encodeDigit_mem _)
    · exact Or.inl (h ▸ encodeDigit_mem _)
    · exact Or.inr h
    · exact Or.inr h
  | case4 => simp [base64Chars] at h

/-- A string of one-byte characters has as many bytes as characters. -/
theorem utf8ByteSize_of_ascii (l : List Char) (h : ∀ c ∈ l, c.toNat < 128) :
    (String.mk l).utf8ByteSize = l.length := by
  induction l with
  | nil => rfl
  | cons c rest ih =>
    have hc : c.toNat < 128 := h c (by simp)
    have h1 : c.utf8Size = 1 := by
      unfold Char.utf8Size
      have : c.val ≤ 127 := by
        rw [UInt32.le_def]
        show c.val.toNat ≤ 127
        unfold Char.toNat at hc; omega
      simp [this]
    have ih' := ih (fun c' hc' => h c' (List.mem_cons_of_mem _ hc'))
    simp only [String.utf8ByteSize, String.utf8ByteSize.go, List.length_cons] at ih' ⊢
    rw [ih', h1]

theorem hextable_ascii : ∀ c ∈ hextable, c.toNat < 128 := by decide

theorem encodeStd_ascii : ∀ c ∈ encodeStd, c.toNat < 128 := by decide

/-- The output of the hex encoder is one byte per character. -/
theorem hexEncodeToString_ascii (b : List Byte) :
    (hexEncodeToString b).utf8ByteSize = (hexEncodeToString b).length :=
  utf8ByteSize_of_ascii _ (fun c hc => hextable_ascii c (hexEncodeToString_mem b c hc))

/-- The output of the base64 encoder is one byte per character. -/
theorem base64EncodeToString_ascii (src : List Byte) :
    (base64EncodeToString src).utf8ByteSize = (base64EncodeToString src).length :=
  utf8ByteSize_of_ascii _ (fun c hc => by
    rcases base64Chars_mem src c hc with h | h
    · exact encodeStd_ascii c h
    · rw [h]; decide)

/-! ## The handshake derivation -/

theorem sliceString_base64_32 (key : List Byte) (h : key.length = 256) :
    sliceString (base64EncodeToString key) 0 32 = some (String.mk ((base64Chars key).take 32)) := by
  have hl : (base64EncodeToString key).length = 344 := by
    unfold base64EncodeToString
    rw [String.length_mk, base64Chars_length, h]
  unfold sliceString
  rw [if_pos (by rw [hl]; decide)]
  rfl

theorem length_take_base64_32 (key : List Byte) (h : key.length = 256) :
    (String.mk ((base64Chars key).take 32)).length = 32 := by
  rw [String.length_mk, List.length_take, base64Chars_length, h]
  rfl

/-- C8.  A `hello` message with a string `serial`, `manufacturer` and `devicetype`, a
numeric `protocol` and well-typed optional fields: the handler returns, and the
secret it stores is the first 32 characters of the base64 encoding of the PBKDF2 key
(HMAC-SHA512, 100000 iterations, 256 bytes) of the session's password with the
serial as salt, a function of the password and the serial only, 32 characters
long.  For every password and every salt the slice `[:32]` of the encoded key is
in range. -/
theorem session_secret (lib : CryptoLib) (s : World) (message : GoMap)
    (serial manufacturer devicetype : String) (protocol : Rat)
    (hserial : message.index "serial" = Value.string serial)
    (hmanufacturer : message.index "manufacturer" = Value.string manufacturer)
    (hdevicetype : message.index "devicetype" = Value.string devicetype)
    (hprotocol : message.index "protocol" = Value.float64 protocol)
    (hhostname : ∀ v, message.lookup "hostname" = some v → ∃ x, v = Value.string x)
    (hname : ∀ v, message.lookup "friendly_name" = some v → ∃ x, v = Value.string x)
    (hversion : ∀ v, message.lookup "version" = some v → ∃ x, v = Value.string x)
    (hsecured : ∀ v, message.lookup "secured" = some v → ∃ b, v = Value.bool b) :
    (∃ s', onEventHello lib message s = .ok () s' ∧
      s'.w._hashedpassword = String.mk ((base64Chars
        (lib.pbkdf2KeySha512 (bytesOf s.w._password) (bytesOf serial) 100000 256)).take 32) ∧
      s'.w._hashedpassword.length = 32) ∧
    (∀ password salt : String,
      sliceString (base64EncodeToString
          (lib.pbkdf2KeySha512 (bytesOf password) (bytesOf salt) 100000 256)) 0 32 =
        some (String.mk ((base64Chars
          (lib.pbkdf2KeySha512 (bytesOf password) (bytesOf salt) 100000 256)).take 32)) ∧
      (String.mk ((base64Chars
          (lib.pbkdf2KeySha512 (bytesOf password) (bytesOf salt) 100000 256)).take 32)).length
        = 32) := by
  constructor
  · have hslice := sliceString_base64_32 _
      (lib.pbkdf2KeySha512_size (bytesOf s.w._password) (bytesOf serial) 100000 256)
    have hlen := length_take_base64_32 _
      (lib.pbkdf2KeySha512_size (bytesOf s.w._password) (bytesOf serial) 100000 256)
    have hidx : ∀ k v, message.lookup k = some v → message.index k = v := by
      intro k v h; simp [GoMap.index, h]
    have optS : ∀ k, (∀ v, message.lookup k = some v → ∃ x, v = Value.string x) →
        (message.lookup k = none ∨
          ∃ x, message.lookup k = some (Value.string x) ∧ message.index k = Value.string x) := by
      intro k hk
      cases hl : message.lookup k with
      | none => exact Or.inl rfl
      | some v =>
        obtain ⟨x, rfl⟩ := hk v hl
        exact Or.inr ⟨x, rfl, hidx k _ hl⟩
    have optB : message.lookup "secured" = none ∨
        ∃ b, message.lookup "secured" = some (Value.bool b) ∧
          message.index "secured" = Value.bool b := by
      cases hl : message.lookup "secured" with
      | none => exact Or.inl rfl
      | some v =>
        obtain ⟨b, rfl⟩ := hsecured v hl
        exact Or.inr ⟨b, rfl, hidx _ _ hl⟩
    rcases optS "hostname" hhostname with h1 | ⟨x1, h1, h1'⟩ <;>
    rcases optS "friendly_name" hname with h2 | ⟨x2, h2, h2'⟩ <;>
    rcases optS "version" hversion with h3 | ⟨x3, h3, h3'⟩ <;>
    rcases optB with h4 | ⟨x4, h4, h4'⟩ <;>
    simp [onEventHello, hasKey, lookupRef, h1, h2, h3, h4, hserial, hmanufacturer, hdevicetype,
      hprotocol, assertString, assertBool, assertFloat64, sliceOrPanic, hslice, hlen, *]
  · intro password salt
    exact ⟨sliceString_base64_32 _ (lib.pbkdf2KeySha512_size _ _ _ _),
      length_take_base64_32 _ (lib.pbkdf2KeySha512_size _ _ _ _)⟩

theorem session_secret_witness :
    (∃ s', onEventHello zeroLib helloMsg (newWorld "wattpilot.local" "secret" (fun _ => 0)) =
        .ok () s' ∧
      s'.w._hashedpassword = String.mk ((base64Chars
        (zeroLib.pbkdf2KeySha512
          (bytesOf (newWorld "wattpilot.local" "secret" (fun _ => 0)).w._password)
          (bytesOf "S1") 100000 256)).take 32) ∧
      s'.w._hashedpassword.length = 32) ∧
    (∀ password salt : String,
      sliceString (base64EncodeToString
          (zeroLib.pbkdf2KeySha512 (bytesOf password) (bytesOf salt) 100000 256)) 0 32 =
        some (String.mk ((base64Chars
          (zeroLib.pbkdf2KeySha512 (bytesOf password) (bytesOf salt) 100000 256)).take 32)) ∧
      (String.mk ((base64Chars
          (zeroLib.pbkdf2KeySha512 (bytesOf password) (bytesOf salt) 100000 256)).take 32)).length
        = 32) :=
  session_secret zeroLib (newWorld "wattpilot.local" "secret" (fun _ => 0)) helloMsg
    "S1" "M" "D" 2 rfl rfl rfl rfl
    (fun v h => absurd (show (none : Option Value) = some v from h) (by simp))
    (fun v h => absurd (show (none : Option Value) = some v from h) (by simp))
    (fun v h => absurd (show (none : Option Value) = some v from h) (by simp))
    (fun v h => absurd (show (none : Option Value) = some v from h) (by simp))

set_option maxRecDepth 100000 in
/-- With the all-zero stand-in key the secret is 32 times the digit `A`. -/
theorem session_secret_example :
    (onEventHello zeroLib helloMsg
      (newWorld "wattpilot.local" "secret" (fun _ => 0))).world.w._hashedpassword =
      "AAAAAAAAAAAAAAAAAAAAAAAAAAAAAAAA" := by
  decide

theorem makeAndRead_ok (n : Nat) (hn : n ≤ maxAlloc) (s : World) :
    makeAndRead (n : Int) s =
      .ok ((List.range n).map s.src) { s with src := fun i => s.src (i + n) } := by
  unfold makeAndRead
  rw [if_neg (by omega)]
  rfl

theorem randomHexString_unfold (n : Int) :
    randomHexString n = (makeAndRead (Int.tdiv (wrapInt (n + 2)) 2) >>= fun b =>
      sliceOrPanic (hexEncodeToString b) 1 (wrapInt (n + 1))) := rfl

theorem sliceOrPanic_of_some (str r : String) (lo hi : Int) (s : World)
    (h : sliceString str lo hi = some r) : sliceOrPanic str lo hi s = .ok r s := by
  unfold sliceOrPanic
  rw [h]
  rfl

/-- Reading `m` bytes and slicing their hex encoding, the sizes left symbolic. -/
theorem read_then_slice (m : Nat) (a b : Int) (ha : a = (m : Int)) (hm : m ≤ maxAlloc)
    (s : World) (r : String)
    (h : sliceString (hexEncodeToString ((List.range m).map s.src)) 1 b = some r) :
    (makeAndRead a >>= fun buf => sliceOrPanic (hexEncodeToString buf) 1 b) s =
      .ok r { s with src := fun i => s.src (i + m) } := by
  subst ha
  rw [bind_run, makeAndRead_ok m hm]
  exact sliceOrPanic_of_some _ _ _ _ _ h

theorem randomHexString_ok (k : Nat) (h1 : (k + 2) / 2 ≤ maxAlloc) (s : World) :
    ∃ str, randomHexString k s = .ok str { s with src := fun i => s.src (i + (k + 2) / 2) } ∧
      str.length = k ∧ (∀ c ∈ str.data, c ∈ hextable) := by
  have hk : (k : Int) < 2 ^ 63 - 2 := by
    have h2 : (k + 2) / 2 ≤ 2 ^ 48 := h1
    omega
  have hw2 : wrapInt ((k : Int) + 2) = ((k + 2 : Nat) : Int) := by
    rw [wrapInt_of_lt _ (by omega) (by omega)]; push_cast; rfl
  have hw1 : wrapInt ((k : Int) + 1) = ((k + 1 : Nat) : Int) := by
    rw [wrapInt_of_lt _ (by omega) (by omega)]; push_cast; rfl
  have hdiv : Int.tdiv (wrapInt ((k : Int) + 2)) 2 = (((k + 2) / 2 : Nat) : Int) := by
    rw [hw2, Int.tdiv_eq_ediv (by omega) (by omega)]; push_cast; rfl
  have hlen : (hexEncodeToString ((List.range ((k + 2) / 2)).map s.src)).length
      = 2 * ((k + 2) / 2) := by
    rw [hexEncodeToString_length, List.length_map, List.length_range]
  have hslice : sliceString (hexEncodeToString ((List.range ((k + 2) / 2)).map s.src)) 1
      (wrapInt ((k : Int) + 1)) = some (String.mk
        (((hexEncodeToString ((List.range ((k + 2) / 2)).map s.src)).data.drop 1).take k)) := by
    rw [hw1]
    unfold sliceString
    rw [if_pos (by rw [hlen]; omega)]
    simp
  refine ⟨String.mk
    (((hexEncodeToString ((List.range ((k + 2) / 2)).map s.src)).data.drop 1).take k),
    (congrFun (randomHexString_unfold k) s).trans
      (read_then_slice ((k + 2) / 2) _ _ hdiv h1 s _ hslice), ?_, ?_⟩
  · have hl2 := hlen
    rw [String.length] at hl2
    rw [String.length_mk, List.length_take, List.length_drop, hl2]
    omega
  · intro c hc
    exact hexEncodeToString_mem _ c (List.mem_of_mem_drop (List.mem_of_mem_take hc))


theorem onEventAuthRequired_run (lib : CryptoLib) (s : World) (message : GoMap)
    (token1 token2 : String) (h1 : message.index "token1" = Value.string token1)
    (h2 : message.index "token2" = Value.string token2) :
    ∃ token3 : String, token3.length = 32 ∧ (∀ c ∈ token3.data, c ∈ hextable) ∧
      onEventAuthRequired lib message s = .ok ()
        { w := { s.w with _token3 := token3 },
          src := fun i => s.src (i + 17),
          out := s.out ++ [.writeMessage (GoMap.ofList [("type", .string "auth"),
            ("token3", .string token3),
            ("hash", .string (sha256sum lib
              (token3 ++ token2 ++ sha256sum lib (token1 ++ s.w._hashedpassword))))])] } := by
  obtain ⟨token3, hrun, hlen, hmem⟩ := randomHexString_ok 32 (by decide) s
  have hrun' : randomHexString 32 s = .ok token3 { s with src := fun i => s.src (i + 17) } := hrun
  refine ⟨token3, hlen, hmem, ?_⟩
  simp only [onEventAuthRequired, h1, h2, assertString, bind_run, pure_run, hrun', modifyW_run,
    getW_run, onSendRepsonse, emit_run, GoMap.ofList, List.foldl_cons, List.foldl_nil]

theorem sha256sum_length (lib : CryptoLib) (data : String) :
    (sha256sum lib data).length = 64 := by
  unfold sha256sum
  rw [hexEncodeToString_length, lib.Sum256_size]

/-- C9.  An `authRequired` message with string `token1` and `token2`: the handler
returns after writing exactly one message, `{type: "auth", token3, hash}`, where
`token3` is the nonce it stored in the session and `hash` is
`hex(SHA256(token3 ++ token2 ++ hex(SHA256(token1 ++ secret))))`, a function of
`token1`, `token2`, `token3` and the secret; each hex digest is 64 characters long,
all of them digits of `0123456789abcdef`. -/
theorem auth_response (lib : CryptoLib) (s : World) (message : GoMap)
    (token1 token2 : String) (h1 : message.index "token1" = Value.string token1)
    (h2 : message.index "token2" = Value.string token2) :
    (∃ token3 s', onEventAuthRequired lib message s = .ok () s' ∧
      s'.w._token3 = token3 ∧
      s'.out = s.out ++ [.writeMessage (GoMap.ofList [("type", .string "auth"),
        ("token3", .string token3),
        ("hash", .string (hexEncodeToString (lib.Sum256 (bytesOf (token3 ++ token2 ++
          hexEncodeToString (lib.Sum256 (bytesOf (token1 ++ s.w._hashedpassword))))))))])]) ∧
    (∀ data : String, (hexEncodeToString (lib.Sum256 (bytesOf data))).length = 64 ∧
      ∀ c ∈ (hexEncodeToString (lib.Sum256 (bytesOf data))).data, c ∈ hextable) := by
  constructor
  · obtain ⟨token3, -, -, hrun⟩ := onEventAuthRequired_run lib s message token1 token2 h1 h2
    exact ⟨token3, _, hrun, rfl, rfl⟩
  · intro data
    exact ⟨sha256sum_length lib data, fun c hc => hexEncodeToString_mem _ c hc⟩

theorem auth_response_witness :
    (∃ token3 s', onEventAuthRequired zeroLib authRequiredMsg docWorld = .ok () s' ∧
      s'.w._token3 = token3 ∧
      s'.out = docWorld.out ++ [.writeMessage (GoMap.ofList [("type", .string "auth"),
        ("token3", .string token3),
        ("hash", .string (hexEncodeToString (zeroLib.Sum256 (bytesOf (token3 ++ "t2" ++
          hexEncodeToString
            (zeroLib.Sum256 (bytesOf ("t1" ++ docWorld.w._hashedpassword))))))))])]) ∧
    (∀ data : String, (hexEncodeToString (zeroLib.Sum256 (bytesOf data))).length = 64 ∧
      ∀ c ∈ (hexEncodeToString (zeroLib.Sum256 (bytesOf data))).data, c ∈ hextable) :=
  auth_response zeroLib docWorld authRequiredMsg "t1" "t2" rfl rfl

/-- C10, amended.  For every `n` from 0 to `2^49 - 1`, so that the buffer of `(n+2)/2`
bytes is within the `2^48` bytes that `make` accepts (the memory for it being there),
and every output of the random source, `randomHexString(n)` returns: the slice `[1 : n+1]` is within the hex encoding
of the `(n+2)/2` bytes read, the result has exactly `n` characters, and each is a
digit of `0123456789abcdef`.  The nonce `token3` that the `authRequired` handler
stores is such a string with `n = 32`. -/
theorem randomHexString_hex (n : Int) (h0 : 0 ≤ n) (h1 : n < 2 ^ 49) (s : World) :
    (∃ str, randomHexString n s =
        .ok str { s with src := fun i => s.src (i + (n.toNat + 2) / 2) } ∧
      (str.length : Int) = n ∧ (∀ c ∈ str.data, c ∈ hextable)) ∧
    (∀ (lib : CryptoLib) (message : GoMap) (token1 token2 : String),
      message.index "token1" = Value.string token1 →
      message.index "token2" = Value.string token2 →
      ∃ s', onEventAuthRequired lib message s = .ok () s' ∧
        s'.w._token3.length = 32 ∧ ∀ c ∈ s'.w._token3.data, c ∈ hextable) := by
  constructor
  · obtain ⟨k, rfl⟩ := Int.eq_ofNat_of_zero_le h0
    have hk : (k + 2) / 2 ≤ 2 ^ 48 := by omega
    obtain ⟨str, hrun, hlen, hmem⟩ := randomHexString_ok k hk s
    exact ⟨str, hrun, by rw [hlen], hmem⟩
  · intro lib message token1 token2 ht1 ht2
    obtain ⟨token3, hlen, hmem, hrun⟩ :=
      onEventAuthRequired_run lib s message token1 token2 ht1 ht2
    exact ⟨_, hrun, hlen, hmem⟩

theorem randomHexString_hex_witness :
    (∃ str, randomHexString 5 (newWorld "" "" (fun i => UInt8.ofNat (i * 37 + 11))) =
        .ok str { newWorld "" "" (fun i => UInt8.ofNat (i * 37 + 11)) with
          src := fun i => UInt8.ofNat ((i + ((5 : Int).toNat + 2) / 2) * 37 + 11) } ∧
      (str.length : Int) = 5 ∧ (∀ c ∈ str.data, c ∈ hextable)) ∧
    (∀ (lib : CryptoLib) (message : GoMap) (token1 token2 : String),
      message.index "token1" = Value.string token1 →
      message.index "token2" = Value.string token2 →
      ∃ s', onEventAuthRequired lib message
          (newWorld "" "" (fun i => UInt8.ofNat (i * 37 + 11))) = .ok () s' ∧
        s'.w._token3.length = 32 ∧ ∀ c ∈ s'.w._token3.data, c ∈ hextable) :=
  randomHexString_hex 5 (by norm_num) (by norm_num)
    (newWorld "" "" (fun i => UInt8.ofNat (i * 37 + 11)))

/-- With the bytes `0b 30 55` from the random source, `randomHexString(5)` is
`b3055`: the first digit of the encoding is dropped. -/
theorem randomHexString_example :
    (randomHexString 5 (newWorld "" "" (fun i => UInt8.ofNat (i * 37 + 11)))).value =
      some "b3055" := by
  decide

/-- C10 as stated fails at `n = 2^49`, where the buffer of `2^48 + 1` bytes is larger
than `make` accepts, and at the largest `int`, where `n + 2` wraps around to a negative
number: in both cases `make` panics and no string is returned. -/
theorem randomHexString_maxInt :
    (0 : Int) ≤ 2 ^ 49 ∧
    randomHexString (2 ^ 49) (newWorld "" "" (fun _ => 0)) =
      .panic .makeslice (newWorld "" "" (fun _ => 0)) ∧
    (0 : Int) ≤ 2 ^ 63 - 1 ∧
    randomHexString (2 ^ 63 - 1) (newWorld "" "" (fun _ => 0)) =
      .panic .makeslice (newWorld "" "" (fun _ => 0)) :=
  ⟨by norm_num, rfl, by norm_num, rfl⟩

/-- The comment on the `make` line says the buffer "can be simplified to n/2 if n is
always even".  It cannot: `n/2` bytes encode to `n` hex digits and the slice
`[1 : n+1]` needs `n + 1`; with 16 bytes the slice `[1:33]` of the call
`randomHexString(32)` is out of range. -/
theorem randomHexString_needs_extra_byte (src : Nat → Byte) :
    sliceString (hexEncodeToString ((List.range (32 / 2)).map src)) 1 (32 + 1) = none ∧
    (sliceString (hexEncodeToString ((List.range ((32 + 2) / 2)).map src)) 1 (32 + 1)).isSome
      = true := by
  have h16 : (hexEncodeToString ((List.range (32 / 2)).map src)).length = 32 := by
    rw [hexEncodeToString_length, List.length_map, List.length_range]
  have h17 : (hexEncodeToString ((List.range ((32 + 2) / 2)).map src)).length = 34 := by
    rw [hexEncodeToString_length, List.length_map, List.length_range]
  unfold sliceString
  rw [h16, h17]
  simp

/-! ## The dispatcher -/

theorem eventHandler_eq_none (lib : CryptoLib) (t : String)
    (h : t ∉ ["hello", "authRequired", "response", "authSuccess", "authError", "fullStatus",
      "deltaStatus", "clearInverters", "updateInverter"]) : eventHandler lib t = none := by
  simp only [List.mem_cons, List.mem_singleton, List.not_mem_nil, or_false, not_or] at h
  obtain ⟨h1, h2, h3, h4, h5, h6, h7, h8, h9⟩ := h
  simp [eventHandler, h1, h2, h3, h4, h5, h6, h7, h8, h9]

theorem dispatch_of_not_string (lib : CryptoLib) (s : World) (data : GoMap) (v : Value)
    (hv : data.lookup "type" = some v) (hs : ∀ t, v ≠ Value.string t) :
    dispatch lib data s = .panic .typeAssertion s := by
  cases v with
  | string t => exact absurd rfl (hs t)
  | _ => simp [dispatch, hv, assertString]

/-- C11.  A message without a `type` field, a message whose `type` is a string other
than the nine known types, and a frame that is not a JSON object are ignored: the
loop body returns, the world is as it was, nothing is sent.  A message whose `type`
is present and not a string is not ignored: the type assertion `msgType.(string)`
panics, as on `{"type": 5}`. -/
theorem dispatch_unrecognized (lib : CryptoLib) (s : World) :
    (∀ data : GoMap, data.lookup "type" = none → dispatch lib data s = .ok () s) ∧
    (∀ (data : GoMap) (t : String), data.lookup "type" = some (Value.string t) →
      t ∉ ["hello", "authRequired", "response", "authSuccess", "authError", "fullStatus",
        "deltaStatus", "clearInverters", "updateInverter"] →
      dispatch lib data s = .ok () s) ∧
    receiveFrame lib Frame.other s = .ok () s ∧
    (∀ (data : GoMap) (v : Value), data.lookup "type" = some v →
      (∀ t, v ≠ Value.string t) → dispatch lib data s = .panic .typeAssertion s) ∧
    receiveFrame lib (Frame.object [("type", Value.float64 5)]) s = .panic .typeAssertion s := by
  refine ⟨?_, ?_, ?_, ?_, ?_⟩
  · intro data h
    simp [dispatch, h]
  · intro data t h ht
    simp [dispatch, h, assertString, eventHandler_eq_none lib t ht]
  · rfl
  · intro data v hv hs
    exact dispatch_of_not_string lib s data v hv hs
  · exact dispatch_of_not_string lib s _ (Value.float64 5) rfl (by intro t h; cases h)

/-! ## Full status -/

/-- The world a complete `fullStatus` leaves. -/
theorem fullStatus_run_complete (s : World) (message : GoMap) (kvs : List (String × Value))
    (hstatus : message.index "status" = Value.map kvs)
    (hcomplete : message.index "partial" = Value.bool false) :
    onEventFullStatus message s = .ok ()
      { w := { s.w with
          _status := some (merge [s.w._status, some (GoMap.ofList kvs)])
          _isInitialized := true },
        src := s.src,
        out := s.out ++ [Effect.initialized true] } := by
  simp [onEventFullStatus, hcomplete, hstatus, assertBool, assertMap]

theorem receiveHandler_append (lib : CryptoLib) (a b : List GoMap) (s : World) :
    receiveHandler lib (a ++ b) s =
      (receiveHandler lib a >>= fun _ => receiveHandler lib b) s := by
  induction a generalizing s with
  | nil => rfl
  | cons data rest ih =>
    simp only [List.cons_append, receiveHandler, bind_run]
    cases dispatch lib data s with
    | ok u s' => exact ih s'
    | panic e s' => rfl

theorem dispatch_fullStatus (lib : CryptoLib) (message : GoMap)
    (htype : message.lookup "type" = some (Value.string "fullStatus")) :
    dispatch lib message = onEventFullStatus message := by
  funext s
  simp [dispatch, htype, assertString, eventHandler]

/-- C13.  A new session that has read any messages without a panic (as `hello`,
`authRequired`, `authSuccess`), then a `fullStatus` with `partial` false and the
status object `u`: the loop returns, and for every key `k` of `u`, `GetProperty(k)`
returns the value of `u` under `k` and no error.  On a session whose document is
still the nil map the handler returns all the same, and the merge into the nil map
has exactly the entries of `u`. -/
theorem getProperty_after_first_fullStatus (lib : CryptoLib) (host password : String)
    (src : Nat → Byte) (before : List GoMap) (message : GoMap) (kvs : List (String × Value))
    (hbefore : (receiveHandler lib before (newWorld host password src)).value = some ())
    (htype : message.lookup "type" = some (Value.string "fullStatus"))
    (hcomplete : message.index "partial" = Value.bool false)
    (hstatus : message.index "status" = Value.map kvs) :
    (∃ s', receiveHandler lib (before ++ [message]) (newWorld host password src) = .ok () s' ∧
      ∀ k v, (GoMap.ofList kvs).lookup k = some v → GetProperty k s' = .ok (v, none) s') ∧
    (∀ s : World, s.w._status = none →
      (onEventFullStatus message s).value = some () ∧
      ∀ k, (merge [none, some (GoMap.ofList kvs)]).lookup k = (GoMap.ofList kvs).lookup k) := by
  constructor
  · cases hb : receiveHandler lib before (newWorld host password src) with
    | panic e s1 => rw [hb] at hbefore; simp [Res.value] at hbefore
    | ok u s1 =>
      have hfull := fullStatus_run_complete s1 message kvs hstatus hcomplete
      have hrun : receiveHandler lib (before ++ [message]) (newWorld host password src) =
          .ok () { w := { s1.w with
                    _status := some (merge [s1.w._status, some (GoMap.ofList kvs)])
                    _isInitialized := true },
                   src := s1.src,
                   out := s1.out ++ [Effect.initialized true] } := by
        rw [receiveHandler_append, bind_run, hb]
        simp only [receiveHandler, bind_run, dispatch_fullStatus lib message htype, hfull,
          pure_run]
      refine ⟨_, hrun, ?_⟩
      intro k v hk
      have hl : (merge [s1.w._status, some (GoMap.ofList kvs)]).lookup k = some v := by
        rw [lookup_merge, hk]
      simp [GetProperty, hasKey, lookupRef, hl]
  · intro s hs
    refine ⟨?_, ?_⟩
    · rw [fullStatus_run_complete s message kvs hstatus hcomplete]; rfl
    · intro k
      rw [lookup_merge]
      cases (GoMap.ofList kvs).lookup k <;> rfl

set_option maxRecDepth 100000 in
theorem getProperty_after_first_fullStatus_witness :
    (∃ s', receiveHandler zeroLib ([helloMsg, authRequiredMsg, authSuccessMsg] ++ [fullStatusMsg])
        (newWorld "wattpilot.local" "secret" (fun _ => 0)) = .ok () s' ∧
      ∀ k v, (GoMap.ofList [("amp", Value.float64 16)]).lookup k = some v →
        GetProperty k s' = .ok (v, none) s') ∧
    (∀ s : World, s.w._status = none →
      (onEventFullStatus fullStatusMsg s).value = some () ∧
      ∀ k, (merge [none, some (GoMap.ofList [("amp", Value.float64 16)])]).lookup k =
        (GoMap.ofList [("amp", Value.float64 16)]).lookup k) :=
  getProperty_after_first_fullStatus zeroLib "wattpilot.local" "secret" (fun _ => 0)
    [helloMsg, authRequiredMsg, authSuccessMsg] fullStatusMsg [("amp", Value.float64 16)]
    rfl rfl rfl rfl

/-! ## Faults: how a handler can end in a panic -/

theorem bind_eq_ok {α β : Type} {x : Go α} {g : α → Go β} {s s'' : World} {b : β}
    (h : (x >>= g) s = .ok b s'') : ∃ a s', x s = .ok a s' ∧ g a s' = .ok b s'' := by
  rw [bind_run] at h
  cases hx : x s with
  | ok a s' => rw [hx] at h; exact ⟨a, s', rfl, h⟩
  | panic e s' => rw [hx] at h; cases h

theorem bind_eq_panic {α β : Type} {x : Go α} {g : α → Go β} {s s'' : World} {e : Fault}
    (h : (x >>= g) s = .panic e s'') :
    x s = .panic e s'' ∨ ∃ a s', x s = .ok a s' ∧ g a s' = .panic e s'' := by
  rw [bind_run] at h
  cases hx : x s with
  | ok a s' => rw [hx] at h; exact Or.inr ⟨a, s', rfl, h⟩
  | panic e' s' => rw [hx] at h; exact Or.inl (by simpa using h)

theorem assertString_eq_ok {v : Value} {s s' : World} {a : String}
    (h : assertString v s = .ok a s') : v = Value.string a ∧ s' = s := by
  cases v <;> first | (cases h; done) | (cases h; exact ⟨rfl, rfl⟩)

theorem assertFloat64_eq_ok {v : Value} {s s' : World} {a : Rat}
    (h : assertFloat64 v s = .ok a s') : v = Value.float64 a ∧ s' = s := by
  cases v <;> first | (cases h; done) | (cases h; exact ⟨rfl, rfl⟩)

theorem Faults.of_ok {α β : Type} {e : Fault} {f : World → β} {x : Go α}
    (h : ∀ s, ∃ a s', x s = .ok a s') : Faults e f x := by
  intro s e' s' hp
  obtain ⟨a, s1, hs⟩ := h s
  rw [hs] at hp
  cases hp

theorem Faults.of_pure {α β : Type} (e : Fault) (f : World → β) (a : α) :
    Faults e f (pure a : Go α) := Faults.of_ok fun s => ⟨a, s, rfl⟩

theorem Faults.of_getW {β : Type} (e : Fault) (f : World → β) : Faults e f getW :=
  Faults.of_ok fun s => ⟨s.w, s, rfl⟩

theorem Faults.of_modifyW {β : Type} (e : Fault) (f : World → β) (g : Wattpilot → Wattpilot) :
    Faults e f (modifyW g) := Faults.of_ok fun _ => ⟨(), _, rfl⟩

theorem Faults.of_emit {β : Type} (e : Fault) (f : World → β) (eff : Effect) :
    Faults e f (emit eff) := Faults.of_ok fun _ => ⟨(), _, rfl⟩

theorem Faults.of_assertString {β : Type} (f : World → β) (v : Value) :
    Faults .typeAssertion f (assertString v) := by
  intro s e' s' h
  cases v <;> first | (cases h; exact ⟨rfl, rfl⟩) | cases h

theorem Faults.of_assertBool {β : Type} (f : World → β) (v : Value) :
    Faults .typeAssertion f (assertBool v) := by
  intro s e' s' h
  cases v <;> first | (cases h; exact ⟨rfl, rfl⟩) | cases h

theorem Faults.of_assertFloat64 {β : Type} (f : World → β) (v : Value) :
    Faults .typeAssertion f (assertFloat64 v) := by
  intro s e' s' h
  cases v <;> first | (cases h; exact ⟨rfl, rfl⟩) | cases h

theorem Faults.of_assertMap {β : Type} (f : World → β) (v : Value) :
    Faults .typeAssertion f (assertMap v) := by
  intro s e' s' h
  cases v <;> first | (cases h; exact ⟨rfl, rfl⟩) | cases h

theorem Faults.of_sliceOrPanic {β : Type} (e : Fault) (f : World → β) {str r : String}
    {lo hi : Int} (h : sliceString str lo hi = some r) : Faults e f (sliceOrPanic str lo hi) :=
  Faults.of_ok fun s => ⟨r, s, sliceOrPanic_of_some str r lo hi s h⟩

theorem Faults.of_bind {α γ β : Type} {e : Fault} {f : World → β} {x : Go α} {g : α → Go γ}
    (hk : Keeps f x) (hx : Faults e f x) (hg : ∀ a, Faults e f (g a)) :
    Faults e f (x >>= g) := by
  intro s e' s' h
  rcases bind_eq_panic h with h1 | ⟨a, s1, h1, h2⟩
  · exact hx s e' s' h1
  · have hk1 := hk s
    rw [h1] at hk1
    obtain ⟨he, hf⟩ := hg a s1 e' s' h2
    exact ⟨he, hf.trans hk1⟩

theorem Faults.of_ite {α β : Type} {e : Fault} {f : World → β} {c : Prop} [Decidable c]
    {x y : Go α} (hx : Faults e f x) (hy : Faults e f y) :
    Faults e f (if c then x else y) := by
  split
  · exact hx
  · exact hy

theorem faults_onEventHello (lib : CryptoLib) (message : GoMap) :
    Faults .typeAssertion helloKept (onEventHello lib message) := by
  unfold onEventHello
  with_reducible repeat' first
    | exact Faults.of_pure _ _ _
    | exact Faults.of_getW _ _
    | exact Faults.of_modifyW _ _ _
    | exact Faults.of_assertString _ _
    | exact Faults.of_assertBool _ _
    | exact Faults.of_assertFloat64 _ _
    | exact Keeps.pure _ _
    | exact Keeps.assertString _ _
    | exact Keeps.assertBool _ _
    | exact Keeps.assertFloat64 _ _
    | exact Keeps.getW _
    | exact Keeps.sliceOrPanic _ _ _ _
    | apply Faults.of_ite
    | apply Faults.of_bind
    | apply Keeps.ite
    | apply Keeps.bind
    | intro _
  all_goals first
    | exact Keeps.modifyW (fun _ => rfl)
    | exact Faults.of_sliceOrPanic _ _ (sliceString_base64_32 _ (lib.pbkdf2KeySha512_size _ _ _ _))

theorem Needs.bind_right {α γ : Type} {P : Prop} {x : Go α} {g : α → Go γ}
    (hg : ∀ a, Needs P (g a)) : Needs P (x >>= g) := by
  intro s b s'' h
  obtain ⟨a, s', -, h2⟩ := bind_eq_ok h
  exact hg a s' b s'' h2

theorem Needs.branches {α : Type} {P : Prop} {c : Prop} [Decidable c] {x y : Go α}
    (hx : Needs P x) (hy : Needs P y) : Needs P (if c then x else y) := by
  split
  · exact hx
  · exact hy

theorem Needs.assertString_bind {γ : Type} (v : Value) (g : String → Go γ) :
    Needs (∃ x, v = Value.string x) (assertString v >>= g) := by
  intro s b s'' h
  obtain ⟨a, s', h1, -⟩ := bind_eq_ok h
  exact ⟨a, (assertString_eq_ok h1).1⟩

theorem Needs.assertFloat64_bind {γ : Type} (v : Value) (g : Rat → Go γ) :
    Needs (∃ x, v = Value.float64 x) (assertFloat64 v >>= g) := by
  intro s b s'' h
  obtain ⟨a, s', h1, -⟩ := bind_eq_ok h
  exact ⟨a, (assertFloat64_eq_ok h1).1⟩

theorem needs_serial (lib : CryptoLib) (message : GoMap) :
    Needs (∃ x, message.index "serial" = Value.string x) (onEventHello lib message) := by
  unfold onEventHello
  with_reducible repeat' first
    | exact Needs.assertString_bind _ _
    | apply Needs.branches
    | apply Needs.bind_right
    | intro _

theorem needs_manufacturer (lib : CryptoLib) (message : GoMap) :
    Needs (∃ x, message.index "manufacturer" = Value.string x) (onEventHello lib message) := by
  unfold onEventHello
  with_reducible repeat' first
    | exact Needs.assertString_bind _ _
    | apply Needs.branches
    | apply Needs.bind_right
    | intro _

theorem needs_devicetype (lib : CryptoLib) (message : GoMap) :
    Needs (∃ x, message.index "devicetype" = Value.string x) (onEventHello lib message) := by
  unfold onEventHello
  with_reducible repeat' first
    | exact Needs.assertString_bind _ _
    | apply Needs.branches
    | apply Needs.bind_right
    | intro _

theorem needs_protocol (lib : CryptoLib) (message : GoMap) :
    Needs (∃ x, message.index "protocol" = Value.float64 x) (onEventHello lib message) := by
  unfold onEventHello
  with_reducible repeat' first
    | exact Needs.assertFloat64_bind _ _
    | apply Needs.branches
    | apply Needs.bind_right
    | intro _

/-- C14.  A `hello` whose `serial` is absent or is not a string: the handler panics
on a type assertion and the secret `_hashedpassword` is the one the session had.
Whenever the handler returns, the message carries a string `serial`, `manufacturer`
and `devicetype` and a numeric `protocol`; and whenever it panics, the fault is a
failed type assertion and the secret is the one the session had. -/
theorem hello_needs_serial (lib : CryptoLib) (s : World) (message : GoMap) :
    ((∀ x, message.index "serial" ≠ Value.string x) →
      ∃ s', onEventHello lib message s = .panic .typeAssertion s' ∧
        s'.w._hashedpassword = s.w._hashedpassword) ∧
    (∀ s', onEventHello lib message s = .ok () s' →
      (∃ x, message.index "serial" = Value.string x) ∧
      (∃ x, message.index "manufacturer" = Value.string x) ∧
      (∃ x, message.index "devicetype" = Value.string x) ∧
      (∃ p, message.index "protocol" = Value.float64 p)) ∧
    (∀ e s', onEventHello lib message s = .panic e s' →
      e = .typeAssertion ∧ s'.w._hashedpassword = s.w._hashedpassword) := by
  have hpanic : ∀ e s', onEventHello lib message s = .panic e s' →
      e = .typeAssertion ∧ s'.w._hashedpassword = s.w._hashedpassword := by
    intro e s' h
    obtain ⟨he, hf⟩ := faults_onEventHello lib message s e s' h
    exact ⟨he, congrArg (fun t => t.1) hf⟩
  refine ⟨?_, ?_, hpanic⟩
  · intro hserial
    cases h : onEventHello lib message s with
    | ok u s' =>
      obtain ⟨x, hx⟩ := needs_serial lib message s u s' h
      exact absurd hx (hserial x)
    | panic e s' =>
      obtain ⟨he, hf⟩ := hpanic e s' h
      exact ⟨s', by rw [he], hf⟩
  · intro s' h
    exact ⟨needs_serial lib message s () s' h, needs_manufacturer lib message s () s' h,
      needs_devicetype lib message s () s' h, needs_protocol lib message s () s' h⟩

/-- A `hello` without `serial` on a new session: a panic, and no secret. -/
theorem hello_without_serial_example :
    (onEventHello zeroLib (GoMap.ofList [("type", .string "hello"), ("manufacturer", .string "M"),
        ("devicetype", .string "D"), ("protocol", .float64 2)])
      (newWorld "wattpilot.local" "secret" (fun _ => 0))).value = none ∧
    (onEventHello zeroLib (GoMap.ofList [("type", .string "hello"), ("manufacturer", .string "M"),
        ("devicetype", .string "D"), ("protocol", .float64 2)])
      (newWorld "wattpilot.local" "secret" (fun _ => 0))).world.w._hashedpassword = "" :=
  ⟨rfl, rfl⟩

/-! ## Decode faults -/

theorem dispatch_deltaStatus (lib : CryptoLib) (message : GoMap)
    (htype : message.lookup "type" = some (Value.string "deltaStatus")) :
    dispatch lib message = onEventDeltaStatus message := by
  funext s
  simp [dispatch, htype, assertString, eventHandler]

theorem deltaStatus_of_not_map (s : World) (message : GoMap)
    (hbad : ∀ kvs, message.index "status" ≠ Value.map kvs) :
    onEventDeltaStatus message s = .panic .typeAssertion s := by
  cases hst : message.index "status" with
  | map kvs => exact absurd hst (hbad kvs)
  | _ => simp [onEventDeltaStatus, hst, assertMap]

/-- C15, amended.  A `deltaStatus` message whose `status` is missing or is not an
object, on any session, initialized or not: the handler panics on the type
assertion with the world as it was, and so does the receive loop, whatever messages
follow: nothing recovers the panic and no later message is handled. -/
theorem malformed_delta_panics (lib : CryptoLib) (s : World) (message : GoMap)
    (rest : List GoMap)
    (htype : message.lookup "type" = some (Value.string "deltaStatus"))
    (hbad : ∀ kvs, message.index "status" ≠ Value.map kvs) :
    onEventDeltaStatus message s = .panic .typeAssertion s ∧
    receiveHandler lib (message :: rest) s = .panic .typeAssertion s := by
  refine ⟨deltaStatus_of_not_map s message hbad, ?_⟩
  simp only [receiveHandler, bind_run, dispatch_deltaStatus lib message htype,
    deltaStatus_of_not_map s message hbad]

theorem malformed_delta_panics_witness :
    onEventDeltaStatus deltaNoStatus docWorld = .panic .typeAssertion docWorld ∧
    receiveHandler zeroLib (deltaNoStatus :: [deltaA1]) docWorld =
      .panic .typeAssertion docWorld :=
  malformed_delta_panics zeroLib docWorld deltaNoStatus [deltaA1] rfl
    (by intro kvs h; cases h)

/-- C15 as stated fails on a ready session: after a `deltaStatus` without `status` the
receive loop has panicked, and the well-formed `deltaStatus` `{"a": 1}` that follows
is not handled, the document still has `a` at 0. -/
theorem malformed_delta_not_tolerated :
    docWorld.w._isInitialized = true ∧
    (receiveHandler zeroLib [deltaNoStatus, deltaA1] docWorld).value = none ∧
    (receiveHandler zeroLib [deltaNoStatus, deltaA1] docWorld).world.w._status.map GoMap.entries
      = some [("a", .float64 0), ("b", .float64 2)] ∧
    (receiveHandler zeroLib [deltaA1] docWorld).world.w._status.map GoMap.entries
      = some [("a", .float64 1), ("b", .float64 2)] :=
  ⟨rfl, rfl, rfl, rfl⟩

theorem fullStatus_panic (s : World) (message : GoMap) (e : Fault) (s' : World)
    (h : onEventFullStatus message s = .panic e s') : e = .typeAssertion ∧ s' = s := by
  cases hp : message.index "partial" with
  | bool b =>
    cases hst : message.index "status" with
    | map kvs =>
      cases b
      · rw [fullStatus_run_complete s message kvs hst hp] at h; cases h
      · simp [onEventFullStatus, hp, hst, assertBool, assertMap] at h
    | _ =>
      simp [onEventFullStatus, hp, hst, assertBool, assertMap] at h
      exact ⟨h.1.symm, h.2.symm⟩
  | _ =>
    simp [onEventFullStatus, hp, assertBool] at h
    exact ⟨h.1.symm, h.2.symm⟩

theorem deltaStatus_panic (s : World) (message : GoMap) (e : Fault) (s' : World)
    (h : onEventDeltaStatus message s = .panic e s') : e = .typeAssertion ∧ s' = s := by
  cases hst : message.index "status" with
  | map kvs => simp [onEventDeltaStatus, hst, assertMap] at h
  | _ =>
    simp [onEventDeltaStatus, hst, assertMap] at h
    exact ⟨h.1.symm, h.2.symm⟩

theorem authRequired_panic (lib : CryptoLib) (s : World) (message : GoMap) (e : Fault)
    (s' : World) (h : onEventAuthRequired lib message s = .panic e s') :
    e = .typeAssertion ∧ s' = s := by
  cases h1 : message.index "token1" with
  | string token1 =>
    cases h2 : message.index "token2" with
    | string token2 =>
      obtain ⟨token3, -, -, hrun⟩ := onEventAuthRequired_run lib s message token1 token2 h1 h2
      rw [hrun] at h
      cases h
    | _ =>
      simp [onEventAuthRequired, h1, h2, assertString] at h
      exact ⟨h.1.symm, h.2.symm⟩
  | _ =>
    simp [onEventAuthRequired, h1, assertString] at h
    exact ⟨h.1.symm, h.2.symm⟩

/-- A panic of the dispatcher is a failed type assertion; it leaves the secret, the
nonce, the flag, the document, the counter and the effects as they were, and
unless the message is a `hello` it leaves the whole world as it was. -/
theorem dispatch_panic (lib : CryptoLib) (s : World) (data : GoMap) (e : Fault) (s' : World)
    (h : dispatch lib data s = .panic e s') :
    e = .typeAssertion ∧ helloKept s' = helloKept s ∧
      (data.index "type" ≠ Value.string "hello" → s' = s) := by
  have key : (e = .typeAssertion ∧ s' = s) ∨
      (data.index "type" = Value.string "hello" ∧ onEventHello lib data s = .panic e s') := by
    unfold dispatch at h
    cases hty : data.lookup "type" with
    | none => rw [hty] at h; cases h
    | some msgType =>
      rw [hty] at h
      cases msgType with
      | string x =>
        have hx : data.index "type" = Value.string x := by simp [GoMap.index, hty]
        replace h : (match eventHandler lib x with
          | none => pure ()
          | some funcCall => funcCall data) s = .panic e s' := h
        unfold eventHandler at h
        split_ifs at h with h1 h2 h3 h4 h5 h6 h7 h8 h9
        · exact Or.inr ⟨h1 ▸ hx, h⟩
        · exact Or.inl (authRequired_panic lib s data e s' h)
        · cases h
        · cases h
        · cases h
        · exact Or.inl (fullStatus_panic s data e s' h)
        · exact Or.inl (deltaStatus_panic s data e s' h)
        · cases h
        · cases h
        · cases h
      | _ =>
        simp [assertString] at h
        exact Or.inl ⟨h.1.symm, h.2.symm⟩
  rcases key with ⟨he, hs⟩ | ⟨hty, hh⟩
  · subst hs
    exact ⟨he, rfl, fun _ => rfl⟩
  · obtain ⟨he, hk⟩ := faults_onEventHello lib data s e s' hh
    exact ⟨he, hk, fun hne => absurd hty hne⟩

/-- C16, amended.  A message whose handling ends in a panic: the fault is a failed type
assertion, and the secret, the nonce, the flag `_isInitialized`, the document, the
request counter and the effects are as before the message; for every message
other than `hello` the whole world is as before the message.  (A `hello` keeps the
identity fields it assigned before the field that failed.) -/
theorem fault_leaves_state (lib : CryptoLib) (s : World) (data : GoMap) (e : Fault)
    (s' : World) (h : dispatch lib data s = .panic e s') :
    e = .typeAssertion ∧
    s'.w._hashedpassword = s.w._hashedpassword ∧ s'.w._token3 = s.w._token3 ∧
    s'.w._isInitialized = s.w._isInitialized ∧ s'.w._status = s.w._status ∧
    s'.w._requestId = s.w._requestId ∧ s'.out = s.out ∧
    (data.index "type" ≠ Value.string "hello" → s' = s) := by
  obtain ⟨he, hk, hs⟩ := dispatch_panic lib s data e s' h
  simp only [helloKept, Prod.mk.injEq] at hk
  exact ⟨he, hk.1, hk.2.1, hk.2.2.2.2.1, hk.2.2.2.2.2.1, hk.2.2.2.2.2.2.1, hk.2.2.2.2.2.2.2, hs⟩

theorem fault_leaves_state_witness :
    Fault.typeAssertion = .typeAssertion ∧
    (dispatch zeroLib helloNoManufacturer
      (newWorld "wattpilot.local" "secret" (fun _ => 0))).world.w._hashedpassword =
      (newWorld "wattpilot.local" "secret" (fun _ => 0)).w._hashedpassword ∧
    (dispatch zeroLib helloNoManufacturer
      (newWorld "wattpilot.local" "secret" (fun _ => 0))).world.w._token3 =
      (newWorld "wattpilot.local" "secret" (fun _ => 0)).w._token3 ∧
    (dispatch zeroLib helloNoManufacturer
      (newWorld "wattpilot.local" "secret" (fun _ => 0))).world.w._isInitialized =
      (newWorld "wattpilot.local" "secret" (fun _ => 0)).w._isInitialized ∧
    (dispatch zeroLib helloNoManufacturer
      (newWorld "wattpilot.local" "secret" (fun _ => 0))).world.w._status =
      (newWorld "wattpilot.local" "secret" (fun _ => 0)).w._status ∧
    (dispatch zeroLib helloNoManufacturer
      (newWorld "wattpilot.local" "secret" (fun _ => 0))).world.w._requestId =
      (newWorld "wattpilot.local" "secret" (fun _ => 0)).w._requestId ∧
    (dispatch zeroLib helloNoManufacturer
      (newWorld "wattpilot.local" "secret" (fun _ => 0))).world.out =
      (newWorld "wattpilot.local" "secret" (fun _ => 0)).out ∧
    (helloNoManufacturer.index "type" ≠ Value.string "hello" →
      (dispatch zeroLib helloNoManufacturer
        (newWorld "wattpilot.local" "secret" (fun _ => 0))).world =
        newWorld "wattpilot.local" "secret" (fun _ => 0)) :=
  fault_leaves_state zeroLib (newWorld "wattpilot.local" "secret" (fun _ => 0))
    helloNoManufacturer .typeAssertion
    (dispatch zeroLib helloNoManufacturer
      (newWorld "wattpilot.local" "secret" (fun _ => 0))).world rfl

/-- C16 as stated fails on a `hello` that carries `hostname`, `friendly_name` and
`serial` but no `manufacturer`: the handler panics, and the session has the three
fields from the message. -/
theorem hello_fault_keeps_fields :
    (dispatch zeroLib helloNoManufacturer (newWorld "wattpilot.local" "secret" (fun _ => 0))).value
      = none ∧
    (newWorld "wattpilot.local" "secret" (fun _ => 0)).w._hostname = "" ∧
    (dispatch zeroLib helloNoManufacturer
      (newWorld "wattpilot.local" "secret" (fun _ => 0))).world.w._hostname = "wattpilot-1" ∧
    (dispatch zeroLib helloNoManufacturer
      (newWorld "wattpilot.local" "secret" (fun _ => 0))).world.w._name = "Garage" ∧
    (dispatch zeroLib helloNoManufacturer
      (newWorld "wattpilot.local" "secret" (fun _ => 0))).world.w._serial = "S1" :=
  ⟨rfl, rfl, rfl, rfl, rfl⟩

/-! ## The two signals -/

theorem fullStatus_eq_beforeSend (message : GoMap) :
    onEventFullStatus message = (fullStatusBeforeSend message >>= fun isPartial =>
      if isPartial then pure ()
      else emit (.initialized true) >>= fun _ =>
        modifyW fun w => { w with _isInitialized := true }) := by
  funext s
  cases hp : message.index "partial" <;> cases hst : message.index "status" <;>
    simp [onEventFullStatus, fullStatusBeforeSend, hp, hst, assertBool, assertMap]

/-- Running a handler up to its channel send, taking the send and running the rest is
running the handler: `dispatchToSend` cuts `dispatch` and changes nothing else. -/
theorem dispatch_eq_dispatchToSend (lib : CryptoLib) (data : GoMap) :
    dispatch lib data = (dispatchToSend lib data >>= fun r =>
      match r with
      | none => pure ()
      | some (e, rest) => emit e >>= fun _ => rest) := by
  funext s
  unfold dispatch dispatchToSend
  cases hty : data.lookup "type" with
  | none => rfl
  | some msgType =>
    cases msgType with
    | string x =>
      by_cases h1 : x = "authSuccess"
      · subst h1
        simp [assertString, eventHandler, onEventAuthSuccess]
      · by_cases h2 : x = "authError"
        · subst h2
          simp [assertString, eventHandler, onEventAuthError]
        · by_cases h3 : x = "fullStatus"
          · subst h3
            simp only [assertString, eventHandler, bind_run, pure_run, fullStatus_eq_beforeSend,
              if_true, if_false, String.reduceEq]
            cases fullStatusBeforeSend data s with
            | ok b s' => cases b <;> simp
            | panic e s' => rfl
          · simp only [assertString, bind_run, pure_run, h1, h2, h3, if_false]
            cases eventHandler lib x with
            | none => rfl
            | some funcCall =>
              simp only [bind_run]
              cases funcCall data s <;> rfl
    | _ => rfl

theorem received_append (a b : List Effect) :
    received (a ++ b) = ((received a).1 + (received b).1, (received a).2 + (received b).2) := by
  induction a with
  | nil => simp [received]
  | cons e rest ih =>
    cases e <;> simp [received, ih] <;> omega

theorem receivedView_write (s : World) (message : GoMap) :
    receivedView { s with out := s.out ++ [.writeMessage message] } = receivedView s := by
  simp [receivedView, received_append, received]

theorem keeps_receivedView_onEventHello (lib : CryptoLib) (message : GoMap) :
    Keeps receivedView (onEventHello lib message) := by
  unfold onEventHello
  with_reducible repeat' first
    | exact Keeps.pure _ _
    | exact Keeps.assertString _ _
    | exact Keeps.assertBool _ _
    | exact Keeps.assertFloat64 _ _
    | exact Keeps.sliceOrPanic _ _ _ _
    | exact Keeps.getW _
    | apply Keeps.ite
    | apply Keeps.bind
    | intro _
  all_goals exact Keeps.modifyW (fun _ => rfl)

theorem keeps_receivedView_onEventAuthRequired (lib : CryptoLib) (message : GoMap) :
    Keeps receivedView (onEventAuthRequired lib message) := by
  unfold onEventAuthRequired randomHexString onSendRepsonse
  with_reducible repeat' first
    | exact Keeps.pure _ _
    | exact Keeps.assertString _ _
    | exact Keeps.sliceOrPanic _ _ _ _
    | exact Keeps.getW _
    | apply Keeps.bind
    | intro _
  · exact Keeps.makeAndRead _ (fun _ _ => rfl)
  · exact Keeps.modifyW (fun _ => rfl)
  · exact Keeps.emit (fun s => receivedView_write s _)

theorem keeps_receivedView_onEventDeltaStatus (message : GoMap) :
    Keeps receivedView (onEventDeltaStatus message) := by
  unfold onEventDeltaStatus
  with_reducible repeat' first
    | exact Keeps.assertMap _ _
    | apply Keeps.bind
    | intro _
  exact Keeps.modifyW (fun _ => rfl)

theorem keeps_receivedView_fullStatusBeforeSend (message : GoMap) :
    Keeps receivedView (fullStatusBeforeSend message) := by
  unfold fullStatusBeforeSend
  with_reducible repeat' first
    | exact Keeps.pure _ _
    | exact Keeps.assertBool _ _
    | exact Keeps.assertMap _ _
    | apply Keeps.bind
    | intro _
  exact Keeps.modifyW (fun _ => rfl)

/-- Up to its channel send a handler receives nothing from the channels, and what
follows the send does not either. -/
theorem dispatchToSend_keeps (lib : CryptoLib) (data : GoMap) (s : World) :
    receivedView (dispatchToSend lib data s).world = receivedView s ∧
    ∀ e rest s', dispatchToSend lib data s = .ok (some (e, rest)) s' →
      Keeps receivedView rest := by
  unfold dispatchToSend
  cases hty : data.lookup "type" with
  | none => exact ⟨rfl, fun e rest s' h => by cases h⟩
  | some msgType =>
    cases msgType with
    | string x =>
      simp only [assertString, bind_run, pure_run]
      by_cases h1 : x = "authSuccess"
      · simp only [h1, if_true, pure_run, Res.world, true_and]
        intro e rest s' h
        cases h
        exact Keeps.pure _ _
      · by_cases h2 : x = "authError"
        · simp only [h2, if_true, String.reduceEq, if_false, pure_run, Res.world, true_and]
          intro e rest s' h
          cases h
          exact Keeps.pure _ _
        · by_cases h3 : x = "fullStatus"
          · simp only [h3, if_true, String.reduceEq, if_false, bind_run]
            have hk := keeps_receivedView_fullStatusBeforeSend data s
            cases hb : fullStatusBeforeSend data s with
            | ok b s1 =>
              rw [hb] at hk
              cases b
              · refine ⟨hk, ?_⟩
                intro e rest s' h
                cases h
                exact Keeps.modifyW (fun _ => rfl)
              · exact ⟨hk, fun e rest s' h => by cases h⟩
            | panic e1 s1 =>
              rw [hb] at hk
              exact ⟨hk, fun e rest s' h => by cases h⟩
          · simp only [h1, h2, h3, if_false]
            have hh : ∀ funcCall, eventHandler lib x = some funcCall →
                Keeps receivedView (funcCall data) := by
              intro funcCall hf
              unfold eventHandler at hf
              split_ifs at hf <;> cases hf
              · exact keeps_receivedView_onEventHello lib data
              · exact keeps_receivedView_onEventAuthRequired lib data
              · exact Keeps.pure _ _
              · exact keeps_receivedView_onEventDeltaStatus data
              · exact Keeps.pure _ _
              · exact Keeps.pure _ _
            cases hf : eventHandler lib x with
            | none => exact ⟨rfl, fun e rest s' h => by cases h⟩
            | some funcCall =>
              have hk := hh funcCall hf s
              simp only [bind_run]
              cases hc : funcCall data s with
              | ok u s1 =>
                rw [hc] at hk
                exact ⟨hk, fun e rest s' h => by cases h⟩
              | panic e1 s1 =>
                rw [hc] at hk
                exact ⟨hk, fun e rest s' h => by cases h⟩
    | _ => exact ⟨rfl, fun e rest s' h => by cases h⟩

/-- A call returns, and receives nothing from the channels. -/
theorem runCall_ok (c : Call) (s : World) :
    ∃ s', runCall c s = .ok () s' ∧ receivedView s' = receivedView s := by
  cases c with
  | getProperty name =>
    have h := getProperty_world s name
    simp only [runCall, bind_run]
    cases hg : GetProperty name s with
    | ok a s' => rw [hg] at h; exact ⟨s', rfl, by rw [show s' = s from h]⟩
    | panic e s' =>
      exfalso
      cases hi : s.w._isInitialized <;> cases hk : hasKey s.w._status name <;>
        simp [GetProperty, hi, hk] at hg
  | status =>
    cases hi : s.w._isInitialized <;> exact ⟨s, by simp [runCall, Status, hi], rfl⟩
  | setProperty name value =>
    cases hi : s.w._isInitialized with
    | false => exact ⟨s, by simp [runCall, SetProperty, hi], rfl⟩
    | true =>
      cases hst : s.w._status with
      | none => exact ⟨s, by simp [runCall, SetProperty, hi, hasKey, hst, lookupRef], rfl⟩
      | some m =>
        cases hk : m.lookup name with
        | none =>
          exact ⟨s, by simp [runCall, SetProperty, hi, hasKey, hst, lookupRef, hk], rfl⟩
        | some old =>
          have hrun := setProperty_run_known s name value old m hi hst hk
          refine ⟨(SetProperty name value s).world, ?_, ?_⟩
          · simp only [runCall, bind_run, hrun, pure_run, Res.world]
          · rw [hrun]
            simp [Res.world, receivedView, received_append, received]

theorem signalsOk_step (lib : CryptoLib) (sys sys' : System) (move : Move)
    (hok : SignalsOk sys) (h : sys.step lib move = some sys') : SignalsOk sys' := by
  obtain ⟨hc, hl⟩ := hok
  cases move with
  | read data =>
    simp only [System.step] at h
    cases hloop : sys.loop with
    | reading =>
      rw [hloop] at h
      obtain ⟨hk, hrest⟩ := dispatchToSend_keeps lib data sys.world
      have hk' : received (dispatchToSend lib data sys.world).world.out = received sys.world.out :=
        hk
      cases hd : dispatchToSend lib data sys.world with
      | ok r w =>
        rw [hd] at h hk'
        have hw : received w.out = sys.caller.received := hk'.trans hc
        cases r with
        | none =>
          cases h
          exact ⟨hw, fun rest hr => by simp [hloop, Loop.rest] at hr⟩
        | some p =>
          obtain ⟨e, rest⟩ := p
          cases h
          refine ⟨hw, fun rest' hr => ?_⟩
          simp only [Loop.rest, Option.some.injEq] at hr
          exact hr ▸ hrest e rest w hd
      | panic e w =>
        rw [hd] at h hk'
        have hw : received w.out = sys.caller.received := hk'.trans hc
        cases h
        exact ⟨hw, fun rest hr => by simp [Loop.rest] at hr⟩
    | sending e rest => rw [hloop] at h; cases h
    | resuming rest => rw [hloop] at h; cases h
    | stopped => rw [hloop] at h; cases h
  | rendezvous =>
    simp only [System.step] at h
    cases hloop : sys.loop with
    | sending e rest =>
      rw [hloop] at h
      have hrest : Keeps receivedView rest := hl rest (by simp [hloop, Loop.rest])
      cases hcaller : sys.caller <;> cases e <;> rw [hcaller] at h hc <;>
        simp only [Caller.receive] at h <;> cases h <;>
        exact ⟨by simp [received_append, received, hc, Caller.received],
          fun rest' hr => by
            simp only [Loop.rest, Option.some.injEq] at hr
            exact hr ▸ hrest⟩
    | reading => rw [hloop] at h; cases h
    | resuming rest => rw [hloop] at h; cases h
    | stopped => rw [hloop] at h; cases h
  | resume =>
    simp only [System.step] at h
    cases hloop : sys.loop with
    | resuming rest =>
      rw [hloop] at h
      simp only at h
      have hk : received (rest sys.world).world.out = received sys.world.out :=
        hl rest (by simp [hloop, Loop.rest]) sys.world
      cases hr : rest sys.world with
      | ok u w =>
        rw [hr] at h hk
        cases h
        exact ⟨hk.trans hc, fun rest hr => by simp [Loop.rest] at hr⟩
      | panic e w =>
        rw [hr] at h hk
        cases h
        exact ⟨hk.trans hc, fun rest hr => by simp [Loop.rest] at hr⟩
    | reading => rw [hloop] at h; cases h
    | sending e rest => rw [hloop] at h; cases h
    | stopped => rw [hloop] at h; cases h
  | call c =>
    simp only [System.step] at h
    obtain ⟨w, hrun, hk⟩ := runCall_ok c sys.world
    have hk' : received w.out = sys.caller.received := (show received w.out = _ from hk).trans hc
    rw [hrun] at h
    cases hloop : sys.loop <;> rw [hloop] at h <;> cases h <;>
      exact ⟨hk', fun rest hr => hl rest (by rw [hloop]; exact hr)⟩

theorem signalsOk_run (lib : CryptoLib) (moves : List Move) (sys sys' : System)
    (hok : SignalsOk sys) (h : System.run lib moves sys = some sys') : SignalsOk sys' := by
  induction moves generalizing sys with
  | nil => cases h; exact hok
  | cons move rest ih =>
    simp only [System.run] at h
    cases hs : sys.step lib move with
    | none => rw [hs] at h; cases h
    | some sys1 =>
      rw [hs] at h
      exact ih sys1 (signalsOk_step lib sys sys1 move hok hs) h

/-- A send that the caller is not waiting for stays where it is: every move that can
be made is a call of the application. -/
theorem parked_step (lib : CryptoLib) (sys sys' : System) (e : Effect) (rest : Go Unit)
    (move : Move) (hloop : sys.loop = .sending e rest) (hrecv : sys.caller.receive e = none)
    (h : sys.step lib move = some sys') :
    sys'.loop = .sending e rest ∧ sys'.caller = sys.caller := by
  cases move with
  | read data => simp [System.step, hloop] at h
  | rendezvous => simp [System.step, hloop, hrecv] at h
  | resume => simp [System.step, hloop] at h
  | call c =>
    obtain ⟨w, hrun, -⟩ := runCall_ok c sys.world
    simp only [System.step, hloop, hrun] at h
    cases h
    exact ⟨rfl, rfl⟩

theorem parked_run (lib : CryptoLib) (moves : List Move) (sys sys' : System) (e : Effect)
    (rest : Go Unit) (hloop : sys.loop = .sending e rest)
    (hrecv : sys.caller.receive e = none) (h : System.run lib moves sys = some sys') :
    sys'.loop = .sending e rest ∧ sys'.caller = sys.caller := by
  induction moves generalizing sys with
  | nil => cases h; exact ⟨hloop, rfl⟩
  | cons move tail ih =>
    simp only [System.run] at h
    cases hs : sys.step lib move with
    | none => rw [hs] at h; cases h
    | some sys1 =>
      rw [hs] at h
      obtain ⟨hl1, hc1⟩ := parked_step lib sys sys1 e rest move hloop hrecv hs
      obtain ⟨hl2, hc2⟩ := ih sys1 hl1 (by rw [hc1]; exact hrecv) h
      exact ⟨hl2, hc2.trans hc1⟩

/-- A `fullStatus` message with a bool `partial` and an object `status`, run up to the
send of the handler. -/
theorem dispatchToSend_fullStatus (lib : CryptoLib) (s : World) (message : GoMap)
    (kvs : List (String × Value)) (b : Bool)
    (htype : message.lookup "type" = some (Value.string "fullStatus"))
    (hp : message.index "partial" = Value.bool b)
    (hstatus : message.index "status" = Value.map kvs) :
    dispatchToSend lib message s =
      .ok (if b then none
        else some (.initialized true, modifyW fun w => { w with _isInitialized := true }))
        { s with w := { s.w with
            _status := some (merge [s.w._status, some (GoMap.ofList kvs)]) } } := by
  cases b <;>
    simp [dispatchToSend, htype, assertString, fullStatusBeforeSend, hp, hstatus, assertBool,
      assertMap]

/-- A call returns, with the flag and the receives as they were. -/
theorem runCall_flag (c : Call) (s : World) :
    ∃ s', runCall c s = .ok () s' ∧ s'.w._isInitialized = s.w._isInitialized ∧
      received s'.out = received s.out := by
  cases c with
  | getProperty name =>
    have h := getProperty_world s name
    simp only [runCall, bind_run]
    cases hg : GetProperty name s with
    | ok a s' => rw [hg] at h; exact ⟨s', rfl, by rw [show s' = s from h], by rw [show s' = s from h]⟩
    | panic e s' =>
      exfalso
      cases hi : s.w._isInitialized <;> cases hk : hasKey s.w._status name <;>
        simp [GetProperty, hi, hk] at hg
  | status =>
    cases hi : s.w._isInitialized <;> exact ⟨s, by simp [runCall, Status, hi], hi, rfl⟩
  | setProperty name value =>
    cases hi : s.w._isInitialized with
    | false => exact ⟨s, by simp [runCall, SetProperty, hi], hi, rfl⟩
    | true =>
      cases hst : s.w._status with
      | none => exact ⟨s, by simp [runCall, SetProperty, hi, hasKey, hst, lookupRef], hi, rfl⟩
      | some m =>
        cases hk : m.lookup name with
        | none =>
          exact ⟨s, by simp [runCall, SetProperty, hi, hasKey, hst, lookupRef, hk], hi, rfl⟩
        | some old =>
          have hrun := setProperty_run_known s name value old m hi hst hk
          refine ⟨(SetProperty name value s).world, ?_, ?_, ?_⟩
          · simp only [runCall, bind_run, hrun, pure_run, Res.world]
          · rw [hrun]
            exact hi
          · rw [hrun]
            simp [Res.world, received_append, received]

/-- While the receive goroutine is parked at a send the caller does not take, a move
leaves it parked, the caller where it is, the flag and the receives as they were. -/
theorem parked_step_flag (lib : CryptoLib) (sys sys' : System) (e : Effect) (rest : Go Unit)
    (move : Move) (hloop : sys.loop = .sending e rest) (hrecv : sys.caller.receive e = none)
    (h : sys.step lib move = some sys') :
    sys'.loop = .sending e rest ∧ sys'.caller = sys.caller ∧
    sys'.world.w._isInitialized = sys.world.w._isInitialized ∧
    received sys'.world.out = received sys.world.out := by
  cases move with
  | read data => simp [System.step, hloop] at h
  | rendezvous => simp [System.step, hloop, hrecv] at h
  | resume => simp [System.step, hloop] at h
  | call c =>
    obtain ⟨w, hrun, hflag, hrec⟩ := runCall_flag c sys.world
    simp only [System.step, hloop, hrun] at h
    cases h
    exact ⟨rfl, rfl, hflag, hrec⟩

theorem parked_run_flag (lib : CryptoLib) (moves : List Move) (sys sys' : System) (e : Effect)
    (rest : Go Unit) (hloop : sys.loop = .sending e rest)
    (hrecv : sys.caller.receive e = none) (h : System.run lib moves sys = some sys') :
    sys'.loop = .sending e rest ∧ sys'.caller = sys.caller ∧
    sys'.world.w._isInitialized = sys.world.w._isInitialized ∧
    received sys'.world.out = received sys.world.out := by
  induction moves generalizing sys with
  | nil => cases h; exact ⟨hloop, rfl, rfl, rfl⟩
  | cons move tail ih =>
    simp only [System.run] at h
    cases hs : sys.step lib move with
    | none => rw [hs] at h; cases h
    | some sys1 =>
      rw [hs] at h
      obtain ⟨hl1, hc1, hf1, hr1⟩ := parked_step_flag lib sys sys1 e rest move hloop hrecv hs
      obtain ⟨hl2, hc2, hf2, hr2⟩ := ih sys1 hl1 (by rw [hc1]; exact hrecv) h
      exact ⟨hl2, hc2.trans hc1, hf2.trans hf1, hr2.trans hr1⟩

/-- C12, amended.  The receive goroutine, at `ReadMessage`, reads a `fullStatus`
message whose `status` is an object.  With `partial` true the handler merges the
status and returns: the flag `_isInitialized` and the effects are as they were, no
signal is sent, and the goroutine is at `ReadMessage` again.  With `partial` false
the handler merges the status and reaches the send of `true` on `w.initialized`, the
flag still as it was.  If `Connect` is at `<-w.initialized`, the signal is received,
`Connect` returns, and the handler then sets `_isInitialized` to true and returns.
If `Connect` is anywhere else, the handler stays at the send for the rest of the
session, whatever is tried: the flag keeps its value and nothing is received from
either channel. -/
theorem fullStatus_partial_or_complete (lib : CryptoLib) (sys : System) (message : GoMap)
    (kvs : List (String × Value)) (hloop : sys.loop = .reading)
    (htype : message.lookup "type" = some (Value.string "fullStatus"))
    (hstatus : message.index "status" = Value.map kvs) :
    (message.index "partial" = Value.bool true →
      sys.step lib (.read message) = some
        { world := { sys.world with w := { sys.world.w with
            _status := some (merge [sys.world.w._status, some (GoMap.ofList kvs)]) } },
          caller := sys.caller,
          loop := .reading }) ∧
    (message.index "partial" = Value.bool false →
      sys.step lib (.read message) = some
        { world := { sys.world with w := { sys.world.w with
            _status := some (merge [sys.world.w._status, some (GoMap.ofList kvs)]) } },
          caller := sys.caller,
          loop := .sending (.initialized true)
            (modifyW fun w => { w with _isInitialized := true }) } ∧
      (sys.caller = .awaitInitialized →
        System.run lib [.read message, .rendezvous, .resume] sys = some
          { world :=
              { w := { sys.world.w with
                  _status := some (merge [sys.world.w._status, some (GoMap.ofList kvs)])
                  _isInitialized := true },
                src := sys.world.src,
                out := sys.world.out ++ [Effect.initialized true] },
            caller := .returned,
            loop := .reading }) ∧
      (sys.caller ≠ .awaitInitialized →
        ∀ (moves : List Move) (sys' : System),
          System.run lib (.read message :: moves) sys = some sys' →
          sys'.loop.pending = some (Effect.initialized true) ∧
          sys'.caller = sys.caller ∧
          sys'.world.w._isInitialized = sys.world.w._isInitialized ∧
          received sys'.world.out = received sys.world.out)) := by
  obtain ⟨world, caller, loop⟩ := sys
  simp only at hloop
  subst hloop
  constructor
  · intro hp
    simp only [System.step, dispatchToSend_fullStatus lib world message kvs true htype hp hstatus,
      if_true]
  · intro hp
    have hstep : System.step lib { world := world, caller := caller, loop := .reading }
        (.read message) = some
        { world := { world with w := { world.w with
            _status := some (merge [world.w._status, some (GoMap.ofList kvs)]) } },
          caller := caller,
          loop := .sending (.initialized true)
            (modifyW fun w => { w with _isInitialized := true }) } := by
      simp only [System.step,
        dispatchToSend_fullStatus lib world message kvs false htype hp hstatus]
      rfl
    refine ⟨hstep, ?_, ?_⟩
    · intro hc
      simp only at hc
      subst hc
      simp only [System.run, hstep]
      rfl
    · intro hc moves sys' hrun
      simp only [System.run, hstep] at hrun
      have hrecv : Caller.receive caller (Effect.initialized true) = none := by
        cases caller with
        | awaitConnected => rfl
        | awaitInitialized => exact absurd rfl hc
        | returned => rfl
      obtain ⟨hl, hcl, hf, hr⟩ := parked_run_flag lib moves _ sys' _ _ rfl hrecv hrun
      exact ⟨by rw [hl]; rfl, hcl, hf, hr⟩

theorem fullStatus_partial_or_complete_witness :
    (fullStatusMsg.index "partial" = Value.bool true →
      awaitingInitialized.step zeroLib (.read fullStatusMsg) = some
        { world := { awaitingInitialized.world with w := { awaitingInitialized.world.w with
            _status := some (merge [awaitingInitialized.world.w._status,
              some (GoMap.ofList [("amp", .float64 16)])]) } },
          caller := awaitingInitialized.caller,
          loop := .reading }) ∧
    (fullStatusMsg.index "partial" = Value.bool false →
      awaitingInitialized.step zeroLib (.read fullStatusMsg) = some
        { world := { awaitingInitialized.world with w := { awaitingInitialized.world.w with
            _status := some (merge [awaitingInitialized.world.w._status,
              some (GoMap.ofList [("amp", .float64 16)])]) } },
          caller := awaitingInitialized.caller,
          loop := .sending (.initialized true)
            (modifyW fun w => { w with _isInitialized := true }) } ∧
      (awaitingInitialized.caller = .awaitInitialized →
        System.run zeroLib [.read fullStatusMsg, .rendezvous, .resume] awaitingInitialized = some
          { world :=
              { w := { awaitingInitialized.world.w with
                  _status := some (merge [awaitingInitialized.world.w._status,
                    some (GoMap.ofList [("amp", .float64 16)])])
                  _isInitialized := true },
                src := awaitingInitialized.world.src,
                out := awaitingInitialized.world.out ++ [Effect.initialized true] },
            caller := .returned,
            loop := .reading }) ∧
      (awaitingInitialized.caller ≠ .awaitInitialized →
        ∀ (moves : List Move) (sys' : System),
          System.run zeroLib (.read fullStatusMsg :: moves) awaitingInitialized = some sys' →
          sys'.loop.pending = some (Effect.initialized true) ∧
          sys'.caller = awaitingInitialized.caller ∧
          sys'.world.w._isInitialized = awaitingInitialized.world.w._isInitialized ∧
          received sys'.world.out = received awaitingInitialized.world.out)) :=
  fullStatus_partial_or_complete zeroLib awaitingInitialized fullStatusMsg
    [("amp", .float64 16)] rfl rfl rfl

/-- With `Connect` at `<-w.initialized`, a complete `fullStatus` with the status
`{"amp": 16}` ends with `Connect` returned, the receive goroutine at `ReadMessage`,
the flag true and the document `{"amp": 16}`. -/
theorem fullStatus_delivered_example :
    (System.run zeroLib [.read fullStatusMsg, .rendezvous, .resume] awaitingInitialized).map
      (fun sys => (sys.caller, sys.loop.pending, sys.world.w._isInitialized,
        rangeOf sys.world.w._status, sys.world.out)) =
      some (.returned, none, true, [("amp", Value.float64 16)],
        [.connected true, .initialized true]) := rfl

/-- The three moves that bring a new session to `awaitingInitialized`: `authSuccess`
is read, `Connect` receives from `w.connected`, the handler returns. -/
theorem awaitingInitialized_reached :
    (System.run zeroLib [.read authSuccessMsg, .rendezvous, .resume]
        (System.new "wattpilot.local" "secret" (fun _ => 0))).map
      (fun sys => (sys.caller, sys.loop.pending, sys.world.out, sys.world.w._isInitialized)) =
      some (awaitingInitialized.caller, awaitingInitialized.loop.pending,
        awaitingInitialized.world.out, awaitingInitialized.world.w._isInitialized) := rfl

/-- C12 as stated fails when a complete `fullStatus` is the first message of a session:
`Connect` is still at `<-w.connected`, so the handler merges the status and stays at
its send on `w.initialized`; no signal is received, the flag `_isInitialized` is
still false, `GetProperty` returns the not-ready error, and neither the receive of
the caller nor the rest of the handler can run. -/
theorem complete_fullStatus_first_parks :
    fullStatusMsg.lookup "type" = some (Value.string "fullStatus") ∧
    fullStatusMsg.index "partial" = Value.bool false ∧
    fullStatusMsg.index "status" = Value.map [("amp", .float64 16)] ∧
    (System.run zeroLib [.read fullStatusMsg]
        (System.new "wattpilot.local" "secret" (fun _ => 0))).map
      (fun sys => (sys.loop.pending, sys.caller, sys.world.out, sys.world.w._isInitialized,
        rangeOf sys.world.w._status, (GetProperty "amp" sys.world).value)) =
      some (some (.initialized true), .awaitConnected, [], false, [("amp", Value.float64 16)],
        some (Value.nil, some ⟨"Connection is not valid"⟩)) ∧
    (System.run zeroLib [.read fullStatusMsg, .rendezvous]
        (System.new "wattpilot.local" "secret" (fun _ => 0))).isNone = true ∧
    (System.run zeroLib [.read fullStatusMsg, .resume]
        (System.new "wattpilot.local" "secret" (fun _ => 0))).isNone = true ∧
    (System.run zeroLib [.read fullStatusMsg, .read partialStatusMsg]
        (System.new "wattpilot.local" "secret" (fun _ => 0))).isNone = true :=
  ⟨rfl, rfl, rfl, rfl, rfl, rfl, rfl⟩

/-- C17, amended.  In every run of a session that `Connect` has started, whatever
messages are read and whatever calls are made, a value is received from
`w.connected` at most once and from `w.initialized` at most once.  The handlers
themselves send on every `authSuccess`, `authError` and complete `fullStatus`: a
send that the caller is not waiting for stays parked for the rest of the run, the
receive goroutine reads no further message. -/
theorem signals_received_once (lib : CryptoLib) (host password : String) (src : Nat → Byte)
    (moves : List Move) (sys : System)
    (h : System.run lib moves (System.new host password src) = some sys) :
    (received sys.world.out).1 ≤ 1 ∧ (received sys.world.out).2 ≤ 1 ∧
    (∀ e rest, sys.loop = .sending e rest → sys.caller.receive e = none →
      ∀ moves' sys', System.run lib moves' sys = some sys' →
        sys'.loop = .sending e rest ∧ sys'.caller = sys.caller ∧
        received sys'.world.out = received sys.world.out) := by
  have hok : SignalsOk sys :=
    signalsOk_run lib moves (System.new host password src) sys
      ⟨rfl, fun rest hr => by simp [System.new, Loop.rest] at hr⟩ h
  have hcount : ∀ t : System, SignalsOk t → t.caller = sys.caller →
      received t.world.out = received sys.world.out := by
    intro t ht hc
    rw [ht.1, hok.1, hc]
  refine ⟨?_, ?_, ?_⟩
  · rw [hok.1]
    cases sys.caller <;> simp [Caller.received]
  · rw [hok.1]
    cases sys.caller <;> simp [Caller.received]
  · intro e rest hloop hrecv moves' sys' hrun
    obtain ⟨hl, hc⟩ := parked_run lib moves' sys sys' e rest hloop hrecv hrun
    exact ⟨hl, hc, hcount sys' (signalsOk_run lib moves' sys sys' hok hrun) hc⟩

theorem signals_received_once_witness :
    (received afterAuthSuccess.world.out).1 ≤ 1 ∧
    (received afterAuthSuccess.world.out).2 ≤ 1 ∧
    (∀ e rest, afterAuthSuccess.loop = .sending e rest →
      afterAuthSuccess.caller.receive e = none →
      ∀ moves' sys', System.run zeroLib moves' afterAuthSuccess = some sys' →
        sys'.loop = .sending e rest ∧ sys'.caller = afterAuthSuccess.caller ∧
        received sys'.world.out = received afterAuthSuccess.world.out) :=
  signals_received_once zeroLib "wattpilot.local" "secret" (fun _ => 0)
    [.read authSuccessMsg, .rendezvous, .resume, .read authSuccessMsg] afterAuthSuccess rfl

/-- C17 as stated fails on a second `authSuccess`: the first send on `w.connected` is
received, and the second `authSuccess` makes the handler send on `w.connected`
again, where the receive goroutine stays parked.  Run without the caller, the two
handlers make two sends. -/
theorem second_authSuccess_sends_again :
    (System.run zeroLib [.read authSuccessMsg, .rendezvous, .resume, .read authSuccessMsg]
        (System.new "wattpilot.local" "secret" (fun _ => 0))).map
      (fun sys => (sys.loop.pending, sys.world.out, sys.caller)) =
      some (some (.connected true), [.connected true], .awaitInitialized) ∧
    (receiveHandler zeroLib [authSuccessMsg, authSuccessMsg]
        (newWorld "wattpilot.local" "secret" (fun _ => 0))).world.out =
      [.connected true, .connected true] :=
  ⟨rfl, rfl⟩

set_option maxRecDepth 100000 in
/-- C18.  The handler of a complete `fullStatus` sends on `w.initialized` first and sets
`_isInitialized` afterwards: the flag at the send is the flag before the message.
On the messages `hello`, `authRequired`, `authSuccess` and a complete `fullStatus`,
when the caller has received from `w.initialized` (so that `Connect` returns) the
flag is still false, and `GetProperty` and `Status` return the not-ready error; the
flag is true only once the receive goroutine has run the rest of the handler. -/
theorem connect_returns_before_flag :
    (∀ message : GoMap, onEventFullStatus message =
      (fullStatusBeforeSend message >>= fun isPartial =>
        if isPartial then pure ()
        else emit (.initialized true) >>= fun _ =>
          modifyW fun w => { w with _isInitialized := true })) ∧
    (∀ (message : GoMap) (s : World),
      (fullStatusBeforeSend message s).world.w._isInitialized = s.w._isInitialized) ∧
    (System.run zeroLib [.read helloMsg, .read authRequiredMsg, .read authSuccessMsg,
        .rendezvous, .resume, .read fullStatusMsg, .rendezvous]
        (System.new "wattpilot.local" "secret" (fun _ => 0))).map
      (fun sys => (sys.caller, sys.world.w._isInitialized,
        (GetProperty "amp" sys.world).value, (Status sys.world).value)) =
      some (.returned, false, some (Value.nil, some ⟨"Connection is not valid"⟩),
        some (none, some ⟨"Connection is not initialzed"⟩)) ∧
    (System.run zeroLib [.read helloMsg, .read authRequiredMsg, .read authSuccessMsg,
        .rendezvous, .resume, .read fullStatusMsg, .rendezvous, .resume]
        (System.new "wattpilot.local" "secret" (fun _ => 0))).map
      (fun sys => (sys.caller, sys.world.w._isInitialized, rangeOf sys.world.w._status)) =
      some (.returned, true, [("amp", Value.float64 16)]) := by
  refine ⟨fullStatus_eq_beforeSend, ?_, rfl, rfl⟩
  intro message s
  have hk : Keeps isInit (fullStatusBeforeSend message) := by
    unfold fullStatusBeforeSend
    with_reducible repeat' first
      | exact Keeps.pure _ _
      | exact Keeps.assertBool _ _
      | exact Keeps.assertMap _ _
      | apply Keeps.bind
      | intro _
    exact Keeps.modifyW (fun _ => rfl)
  exact hk s

/-! ## The secret and the first 24 bytes of the key -/

theorem take_base64Chars (n : Nat) (key : List Byte) (h : 3 * n ≤ key.length) :
    (base64Chars key).take (4 * n) = base64Chars (key.take (3 * n)) := by
  induction n generalizing key with
  | zero => simp [base64Chars]
  | succ n ih =>
    match key, h with
    | a :: b :: c :: rest, h =>
      have hr : 3 * n ≤ rest.length := by simp only [List.length_cons] at h; omega
      have e1 : 4 * (n + 1) = 4 * n + 1 + 1 + 1 + 1 := by ring
      have e2 : 3 * (n + 1) = 3 * n + 1 + 1 + 1 := by ring
      rw [e1, e2]
      simp only [base64Chars, List.take_succ_cons, ih rest hr]
    | [a, b], h => simp only [List.length_cons, List.length_nil] at h; omega
    | [a], h => simp only [List.length_cons, List.length_nil] at h; omega
    | [], h => simp only [List.length_nil] at h; omega

theorem base64Chars_mem_of_triples (n : Nat) (key : List Byte) (h : key.length = 3 * n)
    (c : Char) (hc : c ∈ base64Chars key) : c ∈ encodeStd := by
  induction n generalizing key with
  | zero =>
    have : key = [] := List.length_eq_zero.1 (by omega)
    subst this
    simp [base64Chars] at hc
  | succ n ih =>
    match key, h with
    | a :: b :: c' :: rest, h =>
      have hr : rest.length = 3 * n := by simp only [List.length_cons] at h; omega
      simp only [base64Chars, List.mem_cons] at hc
      rcases hc with hc | hc | hc | hc | hc
      · exact hc ▸ encodeDigit_mem _
      · exact hc ▸ encodeDigit_mem _
      · exact hc ▸ encodeDigit_mem _
      · exact hc ▸ encodeDigit_mem _
      · exact ih rest hr hc
    | [a, b], h => simp only [List.length_cons, List.length_nil] at h; omega
    | [a], h => simp only [List.length_cons, List.length_nil] at h; omega
    | [], h => simp only [List.length_nil] at h; omega

theorem pad_not_mem_encodeStd : '=' ∉ encodeStd := by decide

/-- C19.  For a key of 256 bytes the first 32 characters of its base64 encoding are
the base64 encoding of its first 24 bytes, which has no padding: every character is
in the alphabet of `base64.StdEncoding` and none is `=`.  So the secret stored by
`onEventHello` is the encoding of the first 24 bytes of the PBKDF2 key, and two keys
with the same first 24 bytes give the same secret. -/
theorem secret_from_first_24_bytes :
    (∀ key : List Byte, key.length = 256 →
      (base64Chars key).take 32 = base64Chars (key.take 24) ∧
      ∀ c ∈ (base64Chars key).take 32, c ∈ encodeStd ∧ c ≠ '=') ∧
    (∀ key key' : List Byte, key.length = 256 → key'.length = 256 →
      key.take 24 = key'.take 24 →
      sliceString (base64EncodeToString key) 0 32 =
        sliceString (base64EncodeToString key') 0 32) ∧
    (∀ (lib : CryptoLib) (password salt : String),
      sliceString (base64EncodeToString
          (lib.pbkdf2KeySha512 (bytesOf password) (bytesOf salt) 100000 256)) 0 32 =
        some (String.mk (base64Chars
          ((lib.pbkdf2KeySha512 (bytesOf password) (bytesOf salt) 100000 256).take 24)))) := by
  have htake : ∀ key : List Byte, key.length = 256 →
      (base64Chars key).take 32 = base64Chars (key.take 24) := by
    intro key hk
    exact take_base64Chars 8 key (by omega)
  refine ⟨?_, ?_, ?_⟩
  · intro key hk
    refine ⟨htake key hk, ?_⟩
    intro c hc
    rw [htake key hk] at hc
    have hlen : (key.take 24).length = 3 * 8 := by rw [List.length_take]; omega
    have hmem := base64Chars_mem_of_triples 8 (key.take 24) hlen c hc
    exact ⟨hmem, fun he => pad_not_mem_encodeStd (he ▸ hmem)⟩
  · intro key key' hk hk' h
    rw [sliceString_base64_32 key hk, sliceString_base64_32 key' hk', htake key hk,
      htake key' hk', h]
  · intro lib password salt
    rw [sliceString_base64_32 _ (lib.pbkdf2KeySha512_size _ _ _ _),
      htake _ (lib.pbkdf2KeySha512_size _ _ _ _)]

/-! ## A failed `SetProperty` -/

/-- C20.  A `SetProperty` call that returns an error (the session is not initialized,
or the name is not a key of the document, and only then) leaves the world as it
was: no message is written and the request counter is not incremented.  So over any
history of a new session the `requestId`s of the `setValue` messages written are
`0, 1, ..., n-1` with no gap, and the counter is `n` (as 64-bit integers). -/
theorem failed_setProperty_sends_nothing :
    (∀ (s s' : World) (name : String) (value : Value) (err : GoError),
      SetProperty name value s = .ok (some err) s' →
        s' = s ∧ (s.w._isInitialized = false ∨ lookupRef s.w._status name = none)) ∧
    (∀ (s : World) (name : String) (value : Value),
      (s.w._isInitialized = false ∨ lookupRef s.w._status name = none) →
        ∃ err, SetProperty name value s = .ok (some err) s) ∧
    (∀ (lib : CryptoLib) (host password : String) (src : Nat → Byte) (steps : List Step),
      ∃ n : Nat,
        setValueIds (run lib steps (newWorld host password src)).world.out =
          (List.range n).map (fun i : Nat => Value.int (wrapInt i)) ∧
        (run lib steps (newWorld host password src)).world.w._requestId = wrapInt n) := by
  refine ⟨?_, ?_, ?_⟩
  · intro s s' name value err h
    cases hi : s.w._isInitialized with
    | false =>
      simp [SetProperty, hi] at h
      exact ⟨h.2.symm, Or.inl rfl⟩
    | true =>
      cases hst : s.w._status with
      | none =>
        simp [SetProperty, hi, hasKey, hst, lookupRef] at h
        exact ⟨h.2.symm, Or.inr rfl⟩
      | some m =>
        cases hk : m.lookup name with
        | none =>
          simp [SetProperty, hi, hasKey, hst, lookupRef, hk] at h
          exact ⟨h.2.symm, Or.inr (by simp [lookupRef, hk])⟩
        | some old =>
          rw [setProperty_run_known s name value old m hi hst hk] at h
          cases h
  · intro s name value h
    cases hi : s.w._isInitialized with
    | false => exact ⟨⟨"Connection is not valid"⟩, by simp [SetProperty, hi]⟩
    | true =>
      rcases h with h | h
      · rw [hi] at h; cases h
      · exact ⟨⟨"Could not find " ++ name⟩, by simp [SetProperty, hi, hasKey, h]⟩
  · intro lib host password src steps
    obtain ⟨n, h1, h2⟩ := idsOk_run lib steps (newWorld host password src) ⟨0, rfl, rfl⟩
    exact ⟨n, h2, h1⟩

end wattpilot
